import Mathlib

/-!
Verification of the PubHubs stateless OIDC module (`src/pubhubs/src/oidc.rs`).

The Rust module is shallowly embedded below.  The module's own logic
(client-id codec, scope parsing, the authorization/token/grant-code
endpoints, response rendering) is translated directly from the source.
The cryptographic primitives it calls (SHA-256, HMAC-SHA256,
XChaCha20-Poly1305, the MessagePack serializer) live in external crates
and are modelled as ideal injective primitives: each is an injective,
decodable encoding of its inputs into a byte string.  This realizes
exactly the idealized properties the specification states ("unseal
inverts seal", "any change breaks the MAC"), which are false for the
literal bit-level functions (pigeonhole) and true for the ideal
functionality the crates are believed to implement.  Base64
(the `base64ct` crate, strict/canonical mode) is modelled concretely.

Bytes are `Nat`s; all byte strings produced by the ideal primitives have
elements `< 256` by construction.
-/

set_option maxRecDepth 16384

namespace Pubhubs

/-! ### Variable-length integer framing

The injective byte encodings used by the ideal crypto primitives frame
naturals in little-endian base 128 with a continuation bit (all digits
`< 256`).  `varintGo` carries explicit fuel so that the definition is
structurally recursive (the fuel `n + 1` always suffices). -/

def varintGo : Nat → Nat → List Nat
  | 0, n => [n % 128]
  | fuel + 1, n => if n < 128 then [n] else (n % 128 + 128) :: varintGo fuel (n / 128)

def varint (n : Nat) : List Nat := varintGo (n + 1) n

def readVarint : List Nat → Option (Nat × List Nat)
  | [] => none
  | b :: rest =>
    if b < 128 then some (b, rest)
    else
      match readVarint rest with
      | some (m, r) => some (b - 128 + 128 * m, r)
      | none => none

theorem readVarint_varintGo :
    ∀ (fuel n : Nat), n < fuel → ∀ (rest : List Nat),
      readVarint (varintGo fuel n ++ rest) = some (n, rest) := by
  intro fuel
  induction fuel with
  | zero => intro n h; omega
  | succ fuel ih =>
    intro n h rest
    by_cases h1 : n < 128
    · simp [varintGo, h1, readVarint]
    · have h2 : n / 128 < fuel := by omega
      have h3 : ¬ (n % 128 + 128 < 128) := by omega
      simp only [varintGo, if_neg h1, List.cons_append, readVarint, if_neg h3,
        ih (n / 128) h2 rest]
      have h4 : n % 128 + 128 - 128 + 128 * (n / 128) = n := by omega
      rw [h4]

theorem readVarint_varint (n : Nat) (rest : List Nat) :
    readVarint (varint n ++ rest) = some (n, rest) :=
  readVarint_varintGo (n + 1) n (Nat.lt_succ_self n) rest

theorem varintGo_lt :
    ∀ (fuel n : Nat), ∀ b ∈ varintGo fuel n, b < 256 := by
  intro fuel
  induction fuel with
  | zero => intro n b hb; simp [varintGo] at hb; omega
  | succ fuel ih =>
    intro n b hb
    by_cases h1 : n < 128
    · simp [varintGo, h1] at hb; omega
    · simp only [varintGo, if_neg h1, List.mem_cons] at hb
      rcases hb with hb | hb
      · omega
      · exact ih _ _ hb

theorem varint_lt (n : Nat) : ∀ b ∈ varint n, b < 256 :=
  varintGo_lt (n + 1) n

/-! ### Framed lists of naturals -/

def encNatSeq : List Nat → List Nat
  | [] => []
  | x :: xs => varint x ++ encNatSeq xs

def encNatList (l : List Nat) : List Nat := varint l.length ++ encNatSeq l

def readNats : Nat → List Nat → Option (List Nat × List Nat)
  | 0, l => some ([], l)
  | k + 1, l =>
    match readVarint l with
    | none => none
    | some (n, r) =>
      match readNats k r with
      | none => none
      | some (ns, r2) => some (n :: ns, r2)

def readNatList (l : List Nat) : Option (List Nat × List Nat) :=
  match readVarint l with
  | none => none
  | some (k, r) => readNats k r

theorem readNats_encNatSeq :
    ∀ (l : List Nat) (rest : List Nat),
      readNats l.length (encNatSeq l ++ rest) = some (l, rest) := by
  intro l
  induction l with
  | nil => intro rest; simp [encNatSeq, readNats]
  | cons x xs ih =>
    intro rest
    simp only [encNatSeq, List.length_cons, readNats, List.append_assoc,
      readVarint_varint, ih rest]

theorem readNatList_encNatList (l : List Nat) (rest : List Nat) :
    readNatList (encNatList l ++ rest) = some (l, rest) := by
  simp only [encNatList, readNatList, List.append_assoc, readVarint_varint,
    readNats_encNatSeq]

theorem encNatSeq_lt : ∀ (l : List Nat), ∀ b ∈ encNatSeq l, b < 256 := by
  intro l
  induction l with
  | nil => intro b hb; simp [encNatSeq] at hb
  | cons x xs ih =>
    intro b hb
    simp only [encNatSeq, List.mem_append] at hb
    rcases hb with hb | hb
    · exact varint_lt x b hb
    · exact ih b hb

theorem encNatList_lt (l : List Nat) : ∀ b ∈ encNatList l, b < 256 := by
  intro b hb
  simp only [encNatList, List.mem_append] at hb
  rcases hb with hb | hb
  · exact varint_lt _ b hb
  · exact encNatSeq_lt l b hb

theorem encNatList_append_inj {a b a' b' : List Nat}
    (h : encNatList a ++ a' = encNatList b ++ b') : a = b ∧ a' = b' := by
  have ha := readNatList_encNatList a a'
  have hb := readNatList_encNatList b b'
  rw [h] at ha
  rw [ha] at hb
  simpa using hb

/-! ### Byte view of strings

For the printable-ASCII strings this module handles, the code-point
sequence below is exactly the UTF-8 byte sequence Rust's `as_bytes`
produces; in general it is still an injective byte-per-character view,
which is the only property the claims use. -/

def strBytes (s : String) : List Nat := s.data.map Char.toNat

theorem charToNat_inj {c d : Char} (h : c.toNat = d.toNat) : c = d := by
  rcases c with ⟨cv, hc⟩
  rcases d with ⟨dv, hd⟩
  simp only [Char.toNat] at h
  congr 1
  exact UInt32.ext h

theorem strBytes_inj {s t : String} (h : strBytes s = strBytes t) : s = t := by
  rcases s with ⟨sd⟩
  rcases t with ⟨td⟩
  simp only [strBytes] at h
  congr 1
  exact List.map_injective_iff.mpr (fun _ _ hcd => charToNat_inj hcd) h

def bytesToStr (l : List Nat) : String := String.mk (l.map Char.ofNat)

theorem bytesToStr_strBytes (s : String) : bytesToStr (strBytes s) = s := by
  rcases s with ⟨sd⟩
  simp only [bytesToStr, strBytes, List.map_map]
  congr 1
  have : ∀ c : Char, (Char.ofNat ∘ Char.toNat) c = id c := by
    intro c; simp [Function.comp, Char.ofNat_toNat]
  rw [List.map_congr_left (fun c _ => this c), List.map_id]

/-! ### Ideal cryptographic primitives

`hmac_sha256` models the HMAC-SHA256 of the external `hmac`/`sha2`
crates as an ideal MAC: an injective keyed function from (key, message)
to a byte string.  Injectivity (collision freedom) is exactly the
idealized property the specification's MAC claims rely on; the concrete
32-byte output size of the real function plays no role in the claims,
which only compare MAC values for equality. -/

def hmac_sha256 (key msg : List Nat) : List Nat :=
  1 :: (encNatList key ++ encNatList msg)

theorem hmac_sha256_inj {k m k' m' : List Nat}
    (h : hmac_sha256 k m = hmac_sha256 k' m') : k = k' ∧ m = m' := by
  simp only [hmac_sha256, List.cons.injEq, true_and] at h
  obtain ⟨hk, hm⟩ := encNatList_append_inj h
  refine ⟨hk, ?_⟩
  have h2 : encNatList m ++ [] = encNatList m' ++ [] := by simpa using hm
  exact (encNatList_append_inj h2).1

theorem hmac_sha256_lt (key msg : List Nat) :
    ∀ b ∈ hmac_sha256 key msg, b < 256 := by
  intro b hb
  simp only [hmac_sha256, List.mem_cons, List.mem_append] at hb
  rcases hb with hb | hb | hb
  · omega
  · exact encNatList_lt key b hb
  · exact encNatList_lt msg b hb

/-- Model of `derive_secret(concerns, secret)`: the source computes
`SHA-256(concerns ‖ 0x00 ‖ secret)`; SHA-256 (external `sha2` crate) is
modelled as an ideal injective hash into a byte string. -/
def derive_secret (concerns : String) (secret : List Nat) : List Nat :=
  2 :: (encNatList (strBytes concerns) ++ encNatList secret)

/-- Ideal model of XChaCha20-Poly1305 encryption (external
`chacha20poly1305` crate): the ciphertext is an injective decodable
encoding of (key, nonce, aad, plaintext). -/
def aeadEncrypt (key nonce aad pt : List Nat) : List Nat :=
  encNatList key ++ encNatList nonce ++ encNatList aad ++ encNatList pt

/-- Ideal model of XChaCha20-Poly1305 decryption: inverts `aeadEncrypt`
and fails (as the real AEAD does, up to forgery probability) unless the
supplied key, nonce and associated data all match the ones used at
encryption time. -/
def aeadDecrypt (key nonce aad ct : List Nat) : Option (List Nat) :=
  match readNatList ct with
  | none => none
  | some (k, r1) =>
    match readNatList r1 with
    | none => none
    | some (n, r2) =>
      match readNatList r2 with
      | none => none
      | some (a, r3) =>
        match readNatList r3 with
        | none => none
        | some (p, r4) =>
          if k = key ∧ n = nonce ∧ a = aad ∧ r4 = [] then some p else none

theorem aeadEncrypt_lt (key nonce aad pt : List Nat) :
    ∀ b ∈ aeadEncrypt key nonce aad pt, b < 256 := by
  intro b hb
  simp only [aeadEncrypt, List.mem_append] at hb
  rcases hb with ((hb | hb) | hb) | hb
  · exact encNatList_lt key b hb
  · exact encNatList_lt nonce b hb
  · exact encNatList_lt aad b hb
  · exact encNatList_lt pt b hb

theorem aeadDecrypt_frames (key nonce aad : List Nat) (k' n' a' p : List Nat) :
    aeadDecrypt key nonce aad (aeadEncrypt k' n' a' p) =
      if k' = key ∧ n' = nonce ∧ a' = aad then some p else none := by
  simp only [aeadEncrypt, aeadDecrypt, List.append_assoc, readNatList_encNatList]
  have h4 : readNatList (encNatList p) = some (p, []) := by
    simpa using readNatList_encNatList p []
  simp only [h4]
  by_cases h : k' = key ∧ n' = nonce ∧ a' = aad
  · simp [h]
  · rw [if_neg (by tauto), if_neg (by tauto)]

theorem aeadDecrypt_encrypt (key nonce aad p : List Nat) :
    aeadDecrypt key nonce aad (aeadEncrypt key nonce aad p) = some p := by
  simp [aeadDecrypt_frames]

theorem aeadDecrypt_key_ne {key key' : List Nat} (nonce aad p : List Nat)
    (h : key' ≠ key) :
    aeadDecrypt key' nonce aad (aeadEncrypt key nonce aad p) = none := by
  rw [aeadDecrypt_frames, if_neg (by tauto)]

theorem aeadDecrypt_aad_ne (key nonce : List Nat) {aad aad' : List Nat}
    (p : List Nat) (h : aad' ≠ aad) :
    aeadDecrypt key nonce aad' (aeadEncrypt key nonce aad p) = none := by
  rw [aeadDecrypt_frames, if_neg (by tauto)]

/-! ### Base64 (`base64ct` crate, padded, strict)

`url = true` gives the url-safe alphabet (`Base64Url`), `url = false`
the standard one (`Base64`).  Strict mode of `base64ct` accepts exactly
canonical encodings (correct length, padding only at the end, zero
trailing bits); we realize this as a raw chunk decode followed by a
canonicity check against the encoder. -/

def b64Alphabet (url : Bool) : List Char :=
  "ABCDEFGHIJKLMNOPQRSTUVWXYZabcdefghijklmnopqrstuvwxyz0123456789".data ++
    (if url then ['-', '_'] else ['+', '/'])

def b64Char (url : Bool) (n : Nat) : Char := (b64Alphabet url).getD n 'A'

def lookupIdx (c : Char) : List Char → Option Nat
  | [] => none
  | x :: xs => if x = c then some 0 else (lookupIdx c xs).map (· + 1)

def b64Val (url : Bool) (c : Char) : Option Nat := lookupIdx c (b64Alphabet url)

def b64EncodeChars (url : Bool) : List Nat → List Char
  | [] => []
  | [x] => [b64Char url (x / 4), b64Char url (x % 4 * 16), '=', '=']
  | [x, y] => [b64Char url (x / 4), b64Char url (x % 4 * 16 + y / 16),
      b64Char url (y % 16 * 4), '=']
  | x :: y :: z :: rest =>
    b64Char url (x / 4) :: b64Char url (x % 4 * 16 + y / 16) ::
      b64Char url (y % 16 * 4 + z / 64) :: b64Char url (z % 64) ::
      b64EncodeChars url rest

def b64RawDecode (url : Bool) : List Char → Option (List Nat)
  | [] => some []
  | c0 :: c1 :: c2 :: c3 :: rest =>
    match b64Val url c0, b64Val url c1 with
    | some v0, some v1 =>
      if c2 = '=' then
        if c3 = '=' ∧ rest = [] then some [v0 * 4 + v1 / 16] else none
      else
        match b64Val url c2 with
        | some v2 =>
          if c3 = '=' then
            if rest = [] then some [v0 * 4 + v1 / 16, v1 % 16 * 16 + v2 / 4]
            else none
          else
            match b64Val url c3 with
            | some v3 =>
              match b64RawDecode url rest with
              | some bs =>
                some ((v0 * 4 + v1 / 16) :: (v1 % 16 * 16 + v2 / 4) ::
                  (v2 % 4 * 64 + v3) :: bs)
              | none => none
            | none => none
        | none => none
    | _, _ => none
  | _ => none

def b64Decode (url : Bool) (s : List Char) : Option (List Nat) :=
  match b64RawDecode url s with
  | some bs => if b64EncodeChars url bs = s then some bs else none
  | none => none

def b64EncodeStr (url : Bool) (bs : List Nat) : String :=
  String.mk (b64EncodeChars url bs)

def b64DecodeStr (url : Bool) (s : String) : Option (List Nat) :=
  b64Decode url s.data

theorem b64Val_b64Char :
    ∀ (url : Bool), ∀ n < 64, b64Val url (b64Char url n) = some n := by decide

theorem getD_mem_or {α : Type} (l : List α) (n : Nat) (d : α) :
    l.getD n d ∈ l ∨ l.getD n d = d := by
  induction l generalizing n with
  | nil => right; simp [List.getD]
  | cons x xs ih =>
    cases n with
    | zero => left; simp [List.getD]
    | succ n =>
      rw [List.getD_cons_succ]
      rcases ih n with h | h
      · left; exact List.mem_cons_of_mem x h
      · right; exact h

theorem b64Char_mem (url : Bool) (n : Nat) : b64Char url n ∈ b64Alphabet url := by
  rcases getD_mem_or (b64Alphabet url) n 'A' with h | h
  · exact h
  · rw [b64Char, h]; cases url <;> decide

theorem b64Alphabet_props (url : Bool) :
    ∀ c ∈ b64Alphabet url,
      0x20 ≤ c.toNat ∧ c.toNat ≤ 0x7e ∧ c ≠ '~' ∧ c ≠ '=' := by
  cases url <;> decide

theorem b64Char_ne_eq (url : Bool) (n : Nat) : b64Char url n ≠ '=' :=
  ((b64Alphabet_props url _ (b64Char_mem url n)).2.2.2)

theorem b64RawDecode_encode (url : Bool) :
    ∀ (bs : List Nat), (∀ b ∈ bs, b < 256) →
      b64RawDecode url (b64EncodeChars url bs) = some bs := by
  have key : ∀ (fuel : Nat) (bs : List Nat), bs.length ≤ fuel →
      (∀ b ∈ bs, b < 256) →
      b64RawDecode url (b64EncodeChars url bs) = some bs := by
    intro fuel
    induction fuel with
    | zero =>
      intro bs hlen _
      have : bs = [] := List.length_eq_zero.mp (Nat.le_zero.mp hlen)
      subst this
      simp [b64EncodeChars, b64RawDecode]
    | succ fuel ih =>
      intro bs hlen hv
      match bs with
      | [] => simp [b64EncodeChars, b64RawDecode]
      | [x] =>
        have hx := hv x (by simp)
        have h0 : x / 4 < 64 := by omega
        have h1 : x % 4 * 16 < 64 := by omega
        have l0 := b64Val_b64Char url _ h0
        have l1 := b64Val_b64Char url _ h1
        simp only [b64EncodeChars, b64RawDecode, l0, l1]
        simp
        all_goals omega
      | [x, y] =>
        have hx := hv x (by simp)
        have hy := hv y (by simp)
        have h0 : x / 4 < 64 := by omega
        have h1 : x % 4 * 16 + y / 16 < 64 := by omega
        have h2 : y % 16 * 4 < 64 := by omega
        have l0 := b64Val_b64Char url _ h0
        have l1 := b64Val_b64Char url _ h1
        have l2 := b64Val_b64Char url _ h2
        simp only [b64EncodeChars, b64RawDecode, l0, l1]
        simp [b64Char_ne_eq, l2]
        all_goals omega
      | x :: y :: z :: rest =>
        have hx := hv x (by simp)
        have hy := hv y (by simp)
        have hz := hv z (by simp)
        have h0 : x / 4 < 64 := by omega
        have h1 : x % 4 * 16 + y / 16 < 64 := by omega
        have h2 : y % 16 * 4 + z / 64 < 64 := by omega
        have h3 : z % 64 < 64 := by omega
        have l0 := b64Val_b64Char url _ h0
        have l1 := b64Val_b64Char url _ h1
        have l2 := b64Val_b64Char url _ h2
        have l3 := b64Val_b64Char url _ h3
        have hlen2 : rest.length ≤ fuel := by simp at hlen; omega
        have hrest : b64RawDecode url (b64EncodeChars url rest) = some rest :=
          ih rest hlen2 (fun b hb => hv b (by simp [hb]))
        simp only [b64EncodeChars, b64RawDecode, l0, l1]
        simp [b64Char_ne_eq, l2, l3, hrest]
        all_goals omega
  intro bs hv
  exact key bs.length bs (Nat.le_refl _) hv

theorem b64Decode_encode (url : Bool) (bs : List Nat)
    (hv : ∀ b ∈ bs, b < 256) :
    b64Decode url (b64EncodeChars url bs) = some bs := by
  simp [b64Decode, b64RawDecode_encode url bs hv]

theorem b64Decode_canonical {url : Bool} {s : List Char} {bs : List Nat}
    (h : b64Decode url s = some bs) : b64EncodeChars url bs = s := by
  unfold b64Decode at h
  rcases hr : b64RawDecode url s with _ | raw
  · rw [hr] at h; cases h
  · rw [hr] at h
    change (if b64EncodeChars url raw = s then some raw else none)
      = some bs at h
    by_cases he : b64EncodeChars url raw = s
    · rw [if_pos he] at h
      cases h
      exact he
    · rw [if_neg he] at h
      cases h

theorem b64EncodeChars_subset (url : Bool) :
    ∀ (bs : List Nat), ∀ c ∈ b64EncodeChars url bs,
      c ∈ b64Alphabet url ∨ c = '=' := by
  have key : ∀ (fuel : Nat) (bs : List Nat), bs.length ≤ fuel →
      ∀ c ∈ b64EncodeChars url bs, c ∈ b64Alphabet url ∨ c = '=' := by
    intro fuel
    induction fuel with
    | zero =>
      intro bs hlen c hc
      have : bs = [] := List.length_eq_zero.mp (Nat.le_zero.mp hlen)
      subst this
      simp [b64EncodeChars] at hc
    | succ fuel ih =>
      intro bs hlen c hc
      match bs with
      | [] => simp [b64EncodeChars] at hc
      | [x] =>
        simp only [b64EncodeChars, List.mem_cons, List.not_mem_nil,
          or_false] at hc
        rcases hc with h | h | h | h <;>
          first
          | exact Or.inl (h ▸ b64Char_mem url _)
          | exact Or.inr h
      | [x, y] =>
        simp only [b64EncodeChars, List.mem_cons, List.not_mem_nil,
          or_false] at hc
        rcases hc with h | h | h | h <;>
          first
          | exact Or.inl (h ▸ b64Char_mem url _)
          | exact Or.inr h
      | x :: y :: z :: rest =>
        simp only [b64EncodeChars, List.mem_cons] at hc
        rcases hc with h | h | h | h | h
        · exact Or.inl (h ▸ b64Char_mem url _)
        · exact Or.inl (h ▸ b64Char_mem url _)
        · exact Or.inl (h ▸ b64Char_mem url _)
        · exact Or.inl (h ▸ b64Char_mem url _)
        · exact ih rest (by simp at hlen; omega) c h
  intro bs
  exact key bs.length bs (Nat.le_refl _)

theorem b64EncodeChars_printable (url : Bool) (bs : List Nat) :
    ∀ c ∈ b64EncodeChars url bs,
      (0x20 ≤ c.toNat ∧ c.toNat ≤ 0x7e) ∧ c ≠ '~' := by
  intro c hc
  rcases b64EncodeChars_subset url bs c hc with h | h
  · have := b64Alphabet_props url c h
    exact ⟨⟨this.1, this.2.1⟩, this.2.2.1⟩
  · subst h
    exact ⟨by decide, by decide⟩

/-! ### Character/string utilities mirroring the Rust std operations used -/

/-- Model of Rust `str::split(c)`: splits at every occurrence of `c`,
keeping empty pieces (so the result is always non-empty). -/
def splitChar (c : Char) : List Char → List (List Char)
  | [] => [[]]
  | x :: xs =>
    if x = c then [] :: splitChar c xs
    else
      match splitChar c xs with
      | [] => [[x]]
      | t :: ts => (x :: t) :: ts

/-- Model of Rust `str::find(c)` based splitting: first occurrence. -/
def splitFirst (c : Char) : List Char → Option (List Char × List Char)
  | [] => none
  | x :: xs =>
    if x = c then some ([], xs)
    else (splitFirst c xs).map (fun p => (x :: p.1, p.2))

/-- Model of Rust `str::rfind(c)`: index of the last occurrence.  The
source stores the byte index; for the printable-ASCII client ids this
module accepts, byte and character indices coincide. -/
def rfindChar (c : Char) : List Char → Option Nat
  | [] => none
  | x :: xs =>
    match rfindChar c xs with
    | some i => some (i + 1)
    | none => if x = c then some 0 else none

/-- Unicode `White_Space` code points, as used by Rust
`char::is_whitespace`. -/
def isRustWhitespace (c : Char) : Bool :=
  let n := c.toNat
  (0x09 ≤ n && n ≤ 0x0d) || n = 0x20 || n = 0x85 || n = 0xa0 ||
    n = 0x1680 || (0x2000 ≤ n && n ≤ 0x200a) || n = 0x2028 || n = 0x2029 ||
    n = 0x202f || n = 0x205f || n = 0x3000

def trimStartChars (l : List Char) : List Char :=
  l.dropWhile isRustWhitespace

def trimChars (l : List Char) : List Char :=
  ((l.dropWhile isRustWhitespace).reverse.dropWhile isRustWhitespace).reverse

/-- RFC 3629 UTF-8 decoding (Rust `std::str::from_utf8`): rejects
continuation errors, overlong forms, surrogates and values above
U+10FFFF. -/
def utf8Decode : List Nat → Option (List Char)
  | [] => some []
  | b :: rest =>
    if b < 0x80 then (utf8Decode rest).map (Char.ofNat b :: ·)
    else if b < 0xc2 then none
    else if b < 0xe0 then
      match rest with
      | b2 :: rest2 =>
        if 0x80 ≤ b2 ∧ b2 < 0xc0 then
          (utf8Decode rest2).map (Char.ofNat ((b - 0xc0) * 64 + (b2 - 0x80)) :: ·)
        else none
      | [] => none
    else if b < 0xf0 then
      match rest with
      | b2 :: b3 :: rest3 =>
        if (0x80 ≤ b2 ∧ b2 < 0xc0) ∧ (0x80 ≤ b3 ∧ b3 < 0xc0) ∧
            (b = 0xe0 → 0xa0 ≤ b2) ∧ (b = 0xed → b2 < 0xa0) then
          (utf8Decode rest3).map
            (Char.ofNat ((b - 0xe0) * 4096 + (b2 - 0x80) * 64 + (b3 - 0x80)) :: ·)
        else none
      | _ => none
    else if b < 0xf5 then
      match rest with
      | b2 :: b3 :: b4 :: rest4 =>
        if (0x80 ≤ b2 ∧ b2 < 0xc0) ∧ (0x80 ≤ b3 ∧ b3 < 0xc0) ∧
            (0x80 ≤ b4 ∧ b4 < 0xc0) ∧
            (b = 0xf0 → 0x90 ≤ b2) ∧ (b = 0xf4 → b2 < 0x90) then
          (utf8Decode rest4).map
            (Char.ofNat ((b - 0xf0) * 262144 + (b2 - 0x80) * 4096 +
              (b3 - 0x80) * 64 + (b4 - 0x80)) :: ·)
        else none
      | _ => none
    else none

def hexVal (c : Char) : Option Nat :=
  if '0' ≤ c ∧ c ≤ '9' then some (c.toNat - 48)
  else if 'a' ≤ c ∧ c ≤ 'f' then some (c.toNat - 87)
  else if 'A' ≤ c ∧ c ≤ 'F' then some (c.toNat - 55)
  else none

/-- Model of the form-urlencoded value decoding done by the external
`url`/`serde_urlencoded` crates: `+` becomes a space, valid `%XX`
sequences are percent-decoded (a decoded byte is taken as a code point;
for the ASCII data of this module that is exact), invalid `%` sequences
are kept literally (the crate never fails at this stage). -/
def pctDecode : List Char → List Char
  | [] => []
  | '+' :: rest => ' ' :: pctDecode rest
  | '%' :: a :: b :: rest =>
    match hexVal a, hexVal b with
    | some ha, some hb => Char.ofNat (ha * 16 + hb) :: pctDecode rest
    | _, _ => '%' :: pctDecode (a :: b :: rest)
  | c :: rest => c :: pctDecode rest

/-- Model of `form_urlencoded` pair parsing: split on `&` dropping empty
chunks, split each entry at the first `=` (a missing `=` yields an empty
value), percent-decode names and values. -/
def formDecode (s : String) : List (String × String) :=
  ((splitChar '&' s.data).filter (· ≠ [])).map fun entry =>
    match splitFirst '=' entry with
    | some (k, v) => (String.mk (pctDecode k), String.mk (pctDecode v))
    | none => (String.mk (pctDecode entry), "")

/-! ### Errors and validator primitives (`oidc.rs`) -/

inductive Error
  | MalformedClientId
  | InvalidAuthRequestHandle
  | InvalidAuthCode
  | InvalidScope
  | IdTokenCreation
deriving DecidableEq

/-- `is_printable_ascii`: RFC 6749 Appendix A "*VSCHAR" plus space,
i.e. code points 0x20–0x7e. -/
def is_printable_ascii (characters : List Char) : Bool :=
  characters.all (fun c => 0x20 ≤ c.toNat && c.toNat ≤ 0x7e)

/-- `is_valid_state`: present, printable ASCII, non-empty. -/
def is_valid_state (s : Option String) : Bool :=
  match s with
  | none => false
  | some s => is_printable_ascii s.data && !s.data.isEmpty

def scopeCharOk (c : Char) : Bool :=
  c.toNat = 0x21 || (0x23 ≤ c.toNat && c.toNat ≤ 0x5b) ||
    (0x5d ≤ c.toNat && c.toNat ≤ 0x7e)

def scopeTokens (s : String) : List String :=
  (splitChar ' ' s.data).map String.mk

def scopeTokenOk (t : String) : Bool :=
  !t.data.isEmpty && t.data.all scopeCharOk

/-- Lexicographic byte order on strings (Rust `Ord` for `str`; UTF-8
byte order coincides with code-point order). -/
def natListLeB : List Nat → List Nat → Bool
  | [], _ => true
  | _ :: _, [] => false
  | a :: as, b :: bs => if a < b then true else if a = b then natListLeB as bs else false

def strLeB (a b : String) : Bool := natListLeB (strBytes a) (strBytes b)

def strRel (a b : String) : Prop := strLeB a b = true

instance : DecidableRel strRel := fun a b => instDecidableEqBool (strLeB a b) true

/-- `parse_scope`: split on single spaces, reject empty tokens and
characters outside 0x21, 0x23–0x5b, 0x5d–0x7e, return the tokens
sorted (Rust's `sort` on `&str`, i.e. byte-lexicographically). -/
def parse_scope (scope : String) : Except Error (List String) :=
  if (scopeTokens scope).all scopeTokenOk then
    .ok (List.insertionSort strRel (scopeTokens scope))
  else .error .InvalidScope

/-- Three-way byte-lexicographic comparison (Rust `Ord::cmp` on `str`). -/
def cmpNat (a b : Nat) : Ordering :=
  if a < b then .lt else if a = b then .eq else .gt

def cmpNatList : List Nat → List Nat → Ordering
  | [], [] => .eq
  | [], _ :: _ => .lt
  | _ :: _, [] => .gt
  | a :: as, b :: bs =>
    match cmpNat a b with
    | .eq => cmpNatList as bs
    | o => o

def strCmp (a b : String) : Ordering := cmpNatList (strBytes a) (strBytes b)

/-- Model of `slice::binary_search_by` from the Rust standard library:
the comparator is applied to probed elements, `left`/`right` bracket the
search interval, `mid = left + (right - left) / 2`.  `fuel` bounds the
iteration count so the definition is structural; the interval shrinks
each round, so `length + 1` rounds always suffice. -/
def binarySearchGo (xs : List String) (f : String → Ordering) :
    Nat → Nat → Nat → Except Nat Nat
  | 0, left, _ => .error left
  | fuel + 1, left, right =>
    if left < right then
      let mid := left + (right - left) / 2
      match f (xs.getD mid "") with
      | .lt => binarySearchGo xs f fuel (mid + 1) right
      | .gt => binarySearchGo xs f fuel left mid
      | .eq => .ok mid
    else .error left

def binarySearchBy (xs : List String) (f : String → Ordering) : Except Nat Nat :=
  binarySearchGo xs f (xs.length + 1) 0 xs.length

/-! ### ClientId codec (`ClientId` in `oidc.rs`) -/

structure ClientId where
  data : String
  tilde_pos : Nat
deriving DecidableEq

/-- `TryFrom<String> for ClientId`: require a `~` (split at the last
one) and the whole string printable ASCII. -/
def ClientId.tryFrom (s : String) : Except Error ClientId :=
  match rfindChar '~' s.data with
  | none => .error .MalformedClientId
  | some pos =>
    if is_printable_ascii s.data then .ok ⟨s, pos⟩
    else .error .MalformedClientId

def ClientId.bare_id (c : ClientId) : String :=
  String.mk (c.data.data.take c.tilde_pos)

def ClientId.mac (c : ClientId) : String :=
  String.mk (c.data.data.drop (c.tilde_pos + 1))

/-- `ClientId::compute_mac`: HMAC-SHA256 over
`bare_id ‖ 0x00 ‖ redirect_uri` under the client-hmac secret. -/
def ClientId.compute_mac (bare_id : String) (secret : List Nat)
    (redirect_uri : String) : List Nat :=
  hmac_sha256 secret (strBytes bare_id ++ 0 :: strBytes redirect_uri)

/-- `ClientId::check_mac`: url-safe base64-decode the mac part (any
decoding failure means false) and compare against the recomputed MAC
(`Mac::verify_slice`, a constant-time full comparison that in particular
fails on any length mismatch). -/
def ClientId.check_mac (c : ClientId) (secret : List Nat)
    (redirect_uri : String) : Bool :=
  match b64DecodeStr true c.mac with
  | none => false
  | some mac => decide (ClientId.compute_mac c.bare_id secret redirect_uri = mac)

/-- `ClientId::new`: `bare_id ++ "~" ++ base64url(mac)`; the stored
tilde position is the length of `bare_id`. -/
def ClientId.new (bare_id : String) (secret : List Nat)
    (redirect_uri : String) : ClientId :=
  ⟨bare_id ++ "~" ++ b64EncodeStr true (ClientId.compute_mac bare_id secret redirect_uri),
    bare_id.length⟩

/-- `ClientId::password_mac`: HMAC-SHA256 over the full client-id
string. -/
def ClientId.password_mac (client_id : String) (secret : List Nat) : List Nat :=
  hmac_sha256 secret (strBytes client_id)

def ClientId.password (client_id : String) (secret : List Nat) : String :=
  b64EncodeStr true (ClientId.password_mac client_id secret)

/-- `ClientId::check_password`: url-safe base64-decode the candidate
(failure means false) and compare in constant time. -/
def ClientId.check_password (client_id : String) (secret : List Nat)
    (password : String) : Bool :=
  match b64DecodeStr true password with
  | none => false
  | some pw => decide (ClientId.password_mac client_id secret = pw)

/-! ### `redirect_uri` module -/

namespace RedirectUri

inductive Err
  | UnsupportedResponseType
  | UnsupportedParameter (param : String)
  | InvalidState
  | InvalidNonce
  | InvalidScope
  | UnauthorizedClient
  | ServerError
deriving DecidableEq

def Err.error : Err → String
  | .UnsupportedResponseType => "unsupported_response_type"
  | .UnsupportedParameter _ => "invalid_request"
  | .InvalidState => "invalid_request"
  | .InvalidNonce => "invalid_request"
  | .InvalidScope => "invalid_scope"
  | .UnauthorizedClient => "unauthorized_client"
  | .ServerError => "server_error"

def Err.error_description : Err → Option String
  | .UnsupportedResponseType => some "only \x27code\x27 response_type is supported"
  | .UnsupportedParameter param =>
    some ("parameter \x27" ++ param ++ "\x27 is not supported")
  | .InvalidState =>
    some "\x27state\x27 parameter must be set, non-empty and printable ascii"
  | .InvalidNonce =>
    some "\x27nonce\x27 parameter must be set, non-empty and printable ascii"
  | .InvalidScope =>
    some "\x27scope\x27 parameter must be set, include \x27oidc\x27, and may contain only printable ascii characters excluding \x27\"\x27 and \x27\\\x27"
  | .UnauthorizedClient => none
  | .ServerError => some "internal server error"

inductive ResponseData
  | CodeGrant (code state : String)
  | Error (error : Err) (state : Option String)
deriving DecidableEq

/-- `ResponseData::walk_fields`, as the ordered list of
(field, value) pairs passed to the callback. -/
def ResponseData.walk_fields : ResponseData → List (String × String)
  | .CodeGrant code state => [("code", code), ("state", state)]
  | .Error e state =>
    ("error", e.error) ::
      ((match e.error_description with
        | some desc => [("error_description", desc)]
        | none => []) ++
       (match state with
        | some s => [("state", s)]
        | none => []))

structure Response where
  uri : String
  data : ResponseData
deriving DecidableEq

end RedirectUri

/-! ### `http` module: responses, status, headers, bodies -/

inductive Method
  | Get
  | Post
  | Other
deriving DecidableEq

inductive ContentType
  | UrlEncoded
  | Json
  | Other
deriving DecidableEq

/-- The request view the engine reads (the `http::Request` trait). -/
structure Request where
  method : Method
  query : String
  body : String
  content_type : Option ContentType
  authorization : Option String
deriving DecidableEq

inductive S52Error
  | UnsupportedMethod
  | MalformedQuery
  | MalformedClientId
  | MalformedRedirectUri
  | InvalidClientMAC
  | UnsupportedResponseMode
  | MalformedRequestBody
  | UnsupportedContentType
  | InvalidAuthCode
  | UnsupportedGrantType
  | MissingClientCredentials
  | MalformedClientCredentials
  | InvalidClientCredentials
deriving DecidableEq

/-- RFC 6749 §5.2 error codes (`S52EC`). -/
inductive S52EC
  | InvalidRequest
  | InvalidClient
  | InvalidGrant
  | UnsupportedGrantType
  | UnauthorizedClient
  | InvalidScope
deriving DecidableEq

def S52EC.to_static_str : S52EC → String
  | .InvalidRequest => "invalid_request"
  | .InvalidClient => "invalid_client"
  | .InvalidGrant => "invalid_grant"
  | .UnauthorizedClient => "unauthorized_client"
  | .UnsupportedGrantType => "unsupported_grant_type"
  | .InvalidScope => "invalid_scope"

def S52Error.error_code : S52Error → S52EC
  | .UnsupportedMethod | .MalformedQuery | .MalformedRedirectUri
  | .UnsupportedResponseMode | .MalformedRequestBody
  | .MalformedClientId | .InvalidClientMAC
  | .UnsupportedContentType => .InvalidRequest
  | .InvalidAuthCode => .InvalidGrant
  | .MissingClientCredentials | .MalformedClientCredentials
  | .InvalidClientCredentials => .InvalidClient
  | .UnsupportedGrantType => .UnsupportedGrantType

def S52Error.error (e : S52Error) : String := e.error_code.to_static_str

def S52Error.status (e : S52Error) : Nat :=
  if e.error = "unauthorized_client" then 401 else 400

def S52Error.error_description : S52Error → String
  | .UnsupportedMethod => "Invalid HTTP method - GET must be used for the authorization endpoint, and POST for the token endpoint"
  | .MalformedQuery => "The query string could not be parsed, contained unknown fields, or lacked required fields such as client_id, response_type or redirect_uri."
  | .MalformedClientId => "The client_id contained invalid characters, or did not contain a tilde (\x27~\x27)."
  | .MalformedRedirectUri => "The redirect_uri could not be parsed, contained a fragment (which is prohibited) or did not use the \x27https\x27 scheme."
  | .InvalidClientMAC => "The combination of client_id and redirect_uri was not authenticated by the MAC inside the client_id."
  | .UnsupportedResponseMode => "Unsupported response_mode; only \x27form_post\x27 is supported."
  | .MalformedRequestBody => "The request body could not be parsed, contained unknown fields, or lacked required fields."
  | .UnsupportedContentType => "Unsupported Content-Type; only \x27application/x-www-form-urlencoded\x27 is supported"
  | .InvalidAuthCode => "Invalid authorization code."
  | .UnsupportedGrantType => "Unsupported grant_type; only \x27authorization_code\x27 is supported."
  | .MissingClientCredentials => "Missing \x27Authorization\x27 HTTP header."
  | .MalformedClientCredentials => "Malformed \x27Authorization: Basic ...\x27 header."
  | .InvalidClientCredentials => "Invalid client_id or password."

inductive AuthResponse
  | Error (e : S52Error)
  | FormPost (r : RedirectUri.Response)
deriving DecidableEq

inductive TokenResponse
  | Error (e : S52Error)
  | IdToken (t : String)
deriving DecidableEq

inductive Response
  | Auth (a : AuthResponse)
  | Token (t : TokenResponse)
  | Grant (r : RedirectUri.Response)
deriving DecidableEq

def Response.status : Response → Nat
  | .Auth (.Error e) => e.status
  | .Token (.Error e) => e.status
  | _ => 200

/-- `Response::headers`: the source walks a fixed array of
(name, generator) pairs and keeps the entries whose generator returns a
value; the result in order. -/
def Response.headers (r : Response) : List (String × String) :=
  let ct : String :=
    match r with
    | .Auth (.FormPost _) | .Grant _ => "text/html;charset=UTF-8"
    | .Auth (.Error _) => "plain/text;charset=UTF-8"
    | .Token _ => "application/json;charset=UTF-8"
  [("Content-Type", ct), ("Cache-Control", "no-store")] ++
    (if r.status = 401 then [("WWW-Authenticate", "Basic")] else []) ++
    [("Content-Security-Policy", "frame-ancestors none;")]

/-! ### `html` module -/

def specialChar (c : Char) : Bool :=
  c = '<' || c = '>' || c = '&' || c = Char.ofNat 0x27 || c = Char.ofNat 0x22

def escapeChar (c : Char) : List Char :=
  if c = '<' then "&lt;".data
  else if c = '>' then "&gt;".data
  else if c = '&' then "&amp;".data
  else if c = Char.ofNat 0x22 then "&quot;".data
  else if c = Char.ofNat 0x27 then "&#27;".data
  else [c]

/-- Model of `html::escape`: the source iterates `match_indices` over
the five special characters and splices the pieces between matches
around the per-character replacement strings, which equals this
per-character flat map.  The `Cow::Borrowed` fast path (input returned
unchanged, without allocation) is taken exactly when `escapeBorrowed`
holds, and on that path the result is the input itself. -/
def escape (s : String) : String :=
  String.mk ((s.data.map escapeChar).flatten)

def escapeBorrowed (s : String) : Bool :=
  !s.data.any specialChar

def jsonHexDigit (n : Nat) : Char :=
  if n < 10 then Char.ofNat (48 + n) else Char.ofNat (97 + n - 10)

/-- serde_json string escaping: `"` and `\` get a backslash, control
characters below 0x20 become `\b`, `\t`, `\n`, `\f`, `\r` or
`\u00XX`. -/
def jsonEscapeChar (c : Char) : List Char :=
  if c = Char.ofNat 0x22 then [Char.ofNat 92, Char.ofNat 0x22]
  else if c = Char.ofNat 92 then [Char.ofNat 92, Char.ofNat 92]
  else if 0x20 ≤ c.toNat then [c]
  else if c.toNat = 8 then [Char.ofNat 92, 'b']
  else if c.toNat = 9 then [Char.ofNat 92, 't']
  else if c.toNat = 10 then [Char.ofNat 92, 'n']
  else if c.toNat = 12 then [Char.ofNat 92, 'f']
  else if c.toNat = 13 then [Char.ofNat 92, 'r']
  else [Char.ofNat 92, 'u', '0', '0', jsonHexDigit (c.toNat / 16),
    jsonHexDigit (c.toNat % 16)]

def jsonStr (s : String) : String :=
  "\"" ++ String.mk ((s.data.map jsonEscapeChar).flatten) ++ "\""

def formPostInputs (d : RedirectUri.ResponseData) : String :=
  d.walk_fields.foldl
    (fun acc p =>
      acc ++ "<input type=\"hidden\" name=\"" ++ escape p.1 ++
        "\" value=\"" ++ escape p.2 ++ "\">\n")
    ""

def formPostBody (rur : RedirectUri.Response) : String :=
  "<html>\n                            <head><title>Form redirection...</title></head>\n                            <body onload=\"javascript:document.forms[0].submit()\">\n                                <form method=\"post\" action=\"" ++
    escape rur.uri ++
    "\">\n                                    <input type=\"hidden\">\n                                    " ++
    formPostInputs rur.data ++
    "\n                                    <input type=\"submit\" value=\"Click here to proceed\">\n                                </form>\n                            </body>\n                        </html>"

/-- `Response::into_body`. -/
def Response.into_body : Response → String
  | .Auth (.Error e) =>
    "Oops! something went wrong - sorry about that.\n\nWe can\x27t tell for sure who sent you here, but it might have been a fool\x27s errand. \n\nIf you think it isn\x27t, please contact the website that sent you here, and provide them the following information.\n\n" ++
      e.error ++ "\n\n" ++ e.error_description
  | .Auth (.FormPost rur) => formPostBody rur
  | .Grant rur => formPostBody rur
  | .Token (.Error e) =>
    "\x7b\"error\":" ++ jsonStr e.error ++ ",\"error_description\":" ++
      jsonStr e.error_description ++ "\x7d"
  | .Token (.IdToken t) =>
    "\x7b\"access_token\":\"we provide only an id_token, no access token\",\"token_type\":\"absent\",\"id_token\":" ++
      jsonStr t ++ "\x7d"

/-! ### `basic_auth` module -/

namespace BasicAuth

structure Credentials where
  userid : String
  password : String
deriving DecidableEq

inductive Err
  | MissingBasic
  | MissingWhitespace
  | InvalidBase64
  | InvalidUtf8
  | MissingColon
deriving DecidableEq

/-- `basic_auth::Credentials::from_str`: trim leading whitespace,
require the literal `Basic`, require whitespace right after it, trim
the remainder, standard-base64 decode (strict), UTF-8 decode, split at
the first `:`. -/
def Credentials.from_str (s : String) : Except Err Credentials :=
  let cs := trimStartChars s.data
  if ¬ "Basic".data.isPrefixOf cs then .error .MissingBasic
  else
    match cs.drop 5 with
    | [] => .error .MissingWhitespace
    | c :: rest =>
      if ¬ isRustWhitespace c then .error .MissingWhitespace
      else
        match b64Decode false (trimChars (c :: rest)) with
        | none => .error .InvalidBase64
        | some bytes =>
          match utf8Decode bytes with
          | none => .error .InvalidUtf8
          | some chars =>
            match splitFirst ':' chars with
            | none => .error .MissingColon
            | some (u, p) => .ok ⟨String.mk u, String.mk p⟩

end BasicAuth

/-! ### URL model -/

structure ParsedUrl where
  scheme : String
  query : Option String
  fragment : Option String
deriving DecidableEq

def schemeCharOk (c : Char) : Bool :=
  c.isAlpha || c.isDigit || c = '+' || c = '-' || c = '.'

/-- Model of `url::Url::parse` (external `url` crate), restricted to the
three observations the engine makes: parse failure, the scheme
(lowercased), the fragment and the query.  The scheme is the part
before the first `:` and must be a nonempty alphabetic-led token; the
fragment is everything after the first `#`; the query is the part
between the first `?` (before any `#`) and the fragment. -/
def urlParse (s : String) : Option ParsedUrl :=
  match splitFirst ':' s.data with
  | none => none
  | some (sch, rest) =>
    if sch ≠ [] ∧ (sch.headD 'a').isAlpha ∧ sch.all schemeCharOk then
      let frag := splitFirst '#' rest
      let beforeFrag := match frag with | some (bf, _) => bf | none => rest
      let q := splitFirst '?' beforeFrag
      some ⟨String.mk (sch.map Char.toLower),
        (match q with | some (_, qs) => some (String.mk qs) | none => none),
        (match frag with | some (_, fs) => some (String.mk fs) | none => none)⟩
    else none

/-! ### Query/body records (serde_urlencoded + serde derive semantics)

The derived deserializers consume the decoded (name, value) pairs in
order; a recognized field seen twice is a `duplicate field` error, an
unrecognized field is an error exactly when `deny_unknown_fields` is
set, and at the end a missing non-`Option` field is an error while a
missing `Option` field becomes `None`. -/

structure AuthQuery where
  response_type : String
  client_id : String
  redirect_uri : String
  response_mode : Option String
  scope : Option String
  state : Option String
  nonce : Option String
  display : Option String
  prompt : Option String
  max_age : Option String
  ui_locales : Option String
  id_token_hint : Option String
  login_hint : Option String
  acr_values : Option String
deriving DecidableEq

structure AuthQueryBuilder where
  response_type : Option String := none
  client_id : Option String := none
  redirect_uri : Option String := none
  response_mode : Option String := none
  scope : Option String := none
  state : Option String := none
  nonce : Option String := none
  display : Option String := none
  prompt : Option String := none
  max_age : Option String := none
  ui_locales : Option String := none
  id_token_hint : Option String := none
  login_hint : Option String := none
  acr_values : Option String := none

def authQueryStep (b : AuthQueryBuilder) (kv : String × String) :
    Option AuthQueryBuilder :=
  if kv.1 = "response_type" then
    if b.response_type.isSome then none else some { b with response_type := some kv.2 }
  else if kv.1 = "client_id" then
    if b.client_id.isSome then none else some { b with client_id := some kv.2 }
  else if kv.1 = "redirect_uri" then
    if b.redirect_uri.isSome then none else some { b with redirect_uri := some kv.2 }
  else if kv.1 = "response_mode" then
    if b.response_mode.isSome then none else some { b with response_mode := some kv.2 }
  else if kv.1 = "scope" then
    if b.scope.isSome then none else some { b with scope := some kv.2 }
  else if kv.1 = "state" then
    if b.state.isSome then none else some { b with state := some kv.2 }
  else if kv.1 = "nonce" then
    if b.nonce.isSome then none else some { b with nonce := some kv.2 }
  else if kv.1 = "display" then
    if b.display.isSome then none else some { b with display := some kv.2 }
  else if kv.1 = "prompt" then
    if b.prompt.isSome then none else some { b with prompt := some kv.2 }
  else if kv.1 = "max_age" then
    if b.max_age.isSome then none else some { b with max_age := some kv.2 }
  else if kv.1 = "ui_locales" then
    if b.ui_locales.isSome then none else some { b with ui_locales := some kv.2 }
  else if kv.1 = "id_token_hint" then
    if b.id_token_hint.isSome then none else some { b with id_token_hint := some kv.2 }
  else if kv.1 = "login_hint" then
    if b.login_hint.isSome then none else some { b with login_hint := some kv.2 }
  else if kv.1 = "acr_values" then
    if b.acr_values.isSome then none else some { b with acr_values := some kv.2 }
  else none

/-- `serde_urlencoded::from_str::<AuthQuery>` over decoded pairs
(`deny_unknown_fields`; `response_type`, `client_id`, `redirect_uri`
required). -/
def authQueryFromPairs (ps : List (String × String)) : Option AuthQuery :=
  match ps.foldlM authQueryStep {} with
  | none => none
  | some b =>
    match b.response_type, b.client_id, b.redirect_uri with
    | some rt, some ci, some ru =>
      some ⟨rt, ci, ru, b.response_mode, b.scope, b.state, b.nonce, b.display,
        b.prompt, b.max_age, b.ui_locales, b.id_token_hint, b.login_hint,
        b.acr_values⟩
    | _, _, _ => none

structure TokenQuery where
  grant_type : String
  code : String
  client_id : String
  redirect_uri : String
deriving DecidableEq

structure TokenQueryBuilder where
  grant_type : Option String := none
  code : Option String := none
  client_id : Option String := none
  redirect_uri : Option String := none

def tokenQueryStep (b : TokenQueryBuilder) (kv : String × String) :
    Option TokenQueryBuilder :=
  if kv.1 = "grant_type" then
    if b.grant_type.isSome then none else some { b with grant_type := some kv.2 }
  else if kv.1 = "code" then
    if b.code.isSome then none else some { b with code := some kv.2 }
  else if kv.1 = "client_id" then
    if b.client_id.isSome then none else some { b with client_id := some kv.2 }
  else if kv.1 = "redirect_uri" then
    if b.redirect_uri.isSome then none else some { b with redirect_uri := some kv.2 }
  else none

/-- `serde_urlencoded::from_reader::<TokenQuery>` over decoded pairs
(`deny_unknown_fields`; all four fields required). -/
def tokenQueryFromPairs (ps : List (String × String)) : Option TokenQuery :=
  match ps.foldlM tokenQueryStep {} with
  | none => none
  | some b =>
    match b.grant_type, b.code, b.client_id, b.redirect_uri with
    | some gt, some c, some ci, some ru => some ⟨gt, c, ci, ru⟩
    | _, _, _, _ => none

structure RedirectUriSpecialFields where
  code : Option String
  state : Option String
  nonce : Option String
  error : Option String
  error_description : Option String
  error_uri : Option String
deriving DecidableEq

def RedirectUriSpecialFields.empty (f : RedirectUriSpecialFields) : Bool :=
  f.code.isNone && f.state.isNone && f.nonce.isNone && f.error.isNone &&
    f.error_description.isNone && f.error_uri.isNone

structure RusfBuilder where
  code : Option String := none
  state : Option String := none
  nonce : Option String := none
  error : Option String := none
  error_description : Option String := none
  error_uri : Option String := none

def rusfStep (b : RusfBuilder) (kv : String × String) : Option RusfBuilder :=
  if kv.1 = "code" then
    if b.code.isSome then none else some { b with code := some kv.2 }
  else if kv.1 = "state" then
    if b.state.isSome then none else some { b with state := some kv.2 }
  else if kv.1 = "nonce" then
    if b.nonce.isSome then none else some { b with nonce := some kv.2 }
  else if kv.1 = "error" then
    if b.error.isSome then none else some { b with error := some kv.2 }
  else if kv.1 = "error_description" then
    if b.error_description.isSome then none
    else some { b with error_description := some kv.2 }
  else if kv.1 = "error_uri" then
    if b.error_uri.isSome then none else some { b with error_uri := some kv.2 }
  else some b

/-- `serde_urlencoded::from_str::<RedirectUriSpecialFields>` over decoded
pairs: no `deny_unknown_fields` here, so unknown names are skipped; all
six fields optional. -/
def rusfFromPairs (ps : List (String × String)) : Option RedirectUriSpecialFields :=
  match ps.foldlM rusfStep {} with
  | none => none
  | some b =>
    some ⟨b.code, b.state, b.nonce, b.error, b.error_description, b.error_uri⟩

/-! ### Envelope codec (`seal` / `unseal`) -/

inductive Failure
  | Failure
deriving DecidableEq

/-- `seal`: serialize, draw a fresh 24-byte nonce from the RNG, AEAD
encrypt with the given aad, url-safe base64 the nonce-prefixed
ciphertext.  The RNG draw is the only fallible effect (serialization of
these payloads and encryption cannot fail); it is made explicit as the
`rng` argument, `none` modelling the (vanishingly improbable) failure
path. -/
def sealEnvelope {α : Type} (ser : α → List Nat) (obj : α) (key : List Nat)
    (aad : List Nat) (rng : Option (List Nat)) : Option String :=
  match rng with
  | none => none
  | some nonce =>
    some (b64EncodeStr true (nonce ++ aeadEncrypt key nonce aad (ser obj)))

/-- `unseal`: url-safe base64-decode, reject buffers shorter than the
24-byte nonce, split nonce and ciphertext, AEAD-decrypt, deserialize.
Every failure collapses to the single opaque `Failure`. -/
def unsealEnvelope {α : Type} (deser : List Nat → Option α) (envelope : String)
    (key aad : List Nat) : Except Failure α :=
  match b64DecodeStr true envelope with
  | none => .error .Failure
  | some buf =>
    if buf.length < 24 then .error .Failure
    else
      match aeadDecrypt key (buf.take 24) aad (buf.drop 24) with
      | none => .error .Failure
      | some pt =>
        match deser pt with
        | none => .error .Failure
        | some obj => .ok obj

/-! ### Sealed payloads -/

structure AuthRequestData where
  state : String
  nonce : String
  redirect_uri : String
  scope : String
  client_id : String
deriving DecidableEq

/-- Model of the rmp_serde (MessagePack) serialization of
`AuthRequestData` (external crate): an injective encoding of the five
strings with an exact round-trip. -/
def serAuthRequestData (d : AuthRequestData) : List Nat :=
  3 :: (encNatList (strBytes d.state) ++ encNatList (strBytes d.nonce) ++
    encNatList (strBytes d.redirect_uri) ++ encNatList (strBytes d.scope) ++
    encNatList (strBytes d.client_id))

def deserAuthRequestData (l : List Nat) : Option AuthRequestData :=
  match l with
  | 3 :: r =>
    match readNatList r with
    | none => none
    | some (s1, r1) =>
      match readNatList r1 with
      | none => none
      | some (s2, r2) =>
        match readNatList r2 with
        | none => none
        | some (s3, r3) =>
          match readNatList r3 with
          | none => none
          | some (s4, r4) =>
            match readNatList r4 with
            | none => none
            | some (s5, r5) =>
              if r5 = [] then
                some ⟨bytesToStr s1, bytesToStr s2, bytesToStr s3,
                  bytesToStr s4, bytesToStr s5⟩
              else none
  | _ => none

structure AuthCodeData where
  id_token : String
deriving DecidableEq

/-- Model of the rmp_serde (MessagePack) serialization of
`AuthCodeData` (external crate): an injective encoding of the contained
string with an exact round-trip. -/
def serAuthCodeData (d : AuthCodeData) : List Nat :=
  4 :: encNatList (strBytes d.id_token)

def deserAuthCodeData (l : List Nat) : Option AuthCodeData :=
  match l with
  | 4 :: r =>
    match readNatList r with
    | none => none
    | some (s1, r1) => if r1 = [] then some ⟨bytesToStr s1⟩ else none
  | _ => none

/-- `AuthRequestData::to_handle`: seal with empty aad. -/
def AuthRequestData.to_handle (d : AuthRequestData) (key : List Nat)
    (rng : Option (List Nat)) : Option String :=
  sealEnvelope serAuthRequestData d key [] rng

/-- `AuthRequestData::from_handle`: unseal with empty aad, mapping any
failure to `InvalidAuthRequestHandle`. -/
def AuthRequestData.from_handle (handle : String) (key : List Nat) :
    Except Error AuthRequestData :=
  match unsealEnvelope deserAuthRequestData handle key [] with
  | .ok d => .ok d
  | .error _ => .error .InvalidAuthRequestHandle

/-- `AuthCodeData::to_code`: seal with the full client-id string as
aad. -/
def AuthCodeData.to_code (d : AuthCodeData) (key : List Nat)
    (client_id : String) (rng : Option (List Nat)) : Option String :=
  sealEnvelope serAuthCodeData d key (strBytes client_id) rng

/-- `AuthCodeData::from_code`: unseal with the full client-id string as
aad, mapping any failure to `InvalidAuthCode`. -/
def AuthCodeData.from_code (code : String) (key : List Nat)
    (client_id : String) : Except Error AuthCodeData :=
  match unsealEnvelope deserAuthCodeData code key (strBytes client_id) with
  | .ok d => .ok d
  | .error _ => .error .InvalidAuthCode

/-! ### The engine (`OidcImpl`) -/

structure OidcImpl where
  client_hmac_secret : List Nat
  client_password_secret : List Nat
  auth_code_secret : List Nat
  auth_request_handle_secret : List Nat
deriving DecidableEq

/-- `oidc::new`: derive the four namespaced sub-secrets from the master
secret. -/
def newOidc (secret : List Nat) : OidcImpl :=
  ⟨derive_secret "client-hmac" secret,
   derive_secret "client-password" secret,
   derive_secret "auth-code" secret,
   derive_secret "auth-request-handle" secret⟩

structure TokenCreationData where
  nonce : String
  client_id : String
  scope : String
deriving DecidableEq

structure ClientCredentials where
  client_id : ClientId
  password : String
deriving DecidableEq

/-- `Oidc::generate_client_credentials`. -/
def generate_client_credentials (o : OidcImpl) (bare_id redirect_uri : String) :
    ClientCredentials :=
  let cid := ClientId.new bare_id o.client_hmac_secret redirect_uri
  ⟨cid, ClientId.password cid.data o.client_password_secret⟩

/-- Outcome of `handle_auth`: either an `http::Response` produced by the
engine itself, or the hand-over to `Handler::handle_auth` with the
sealed `auth_request_handle` (whose response is returned verbatim). -/
inductive HandleAuthResult
  | Resp (r : Response)
  | Handler (auth_request_handle : String)
deriving DecidableEq

def err_resp (query : AuthQuery) (e : RedirectUri.Err) : HandleAuthResult :=
  .Resp (.Auth (.FormPost ⟨query.redirect_uri, .Error e query.state⟩))

/-- `handle_auth` with the direct-error checks done; models the source
from the `check response_mode` line on.  `is_valid_client` stands for
the `Handler` collaborator's policy check, `rng` for the nonce drawn by
the `seal` of the handle (`none` = RNG failure).  On `state`, `nonce`
and `scope` the source unwraps options previously validated
(`expect`); `Option.getD` is used for those unreachable defaults. -/
def handle_auth_validated (o : OidcImpl)
    (is_valid_client : ClientId → String → Bool) (query : AuthQuery)
    (client_id : ClientId) (rng : Option (List Nat)) : HandleAuthResult :=
  if query.response_mode ≠ some "form_post" then
    .Resp (.Auth (.Error .UnsupportedResponseMode))
  else if query.response_type ≠ "code" then
    err_resp query .UnsupportedResponseType
  else if ¬ is_valid_state query.state then
    err_resp query .InvalidState
  else if query.display.isSome then
    err_resp query (.UnsupportedParameter "display")
  else if query.prompt.isSome then
    err_resp query (.UnsupportedParameter "prompt")
  else if query.max_age.isSome then
    err_resp query (.UnsupportedParameter "max_age")
  else if query.ui_locales.isSome then
    err_resp query (.UnsupportedParameter "ui_locales")
  else if query.id_token_hint.isSome then
    err_resp query (.UnsupportedParameter "id_token_hint")
  else if query.login_hint.isSome then
    err_resp query (.UnsupportedParameter "login_hint")
  else if query.acr_values.isSome then
    err_resp query (.UnsupportedParameter "acr_values")
  else if ¬ is_valid_state query.nonce then
    err_resp query .InvalidNonce
  else
    match query.scope with
    | none => err_resp query .InvalidScope
    | some sc =>
      match parse_scope sc with
      | .error _ => err_resp query .InvalidScope
      | .ok scope =>
        match binarySearchBy scope (fun x => strCmp "oidc" x) with
        | .error _ => err_resp query .InvalidScope
        | .ok _ =>
          if ¬ is_valid_client client_id query.redirect_uri then
            err_resp query .UnauthorizedClient
          else
            match (AuthRequestData.mk (query.state.getD "") (query.nonce.getD "")
                query.redirect_uri sc query.client_id).to_handle
                o.auth_request_handle_secret rng with
            | some handle => .Handler handle
            | none => err_resp query .ServerError

/-- `OidcImpl::handle_auth`: the full validation pipeline of the
authorization endpoint. -/
def handle_auth (o : OidcImpl) (is_valid_client : ClientId → String → Bool)
    (req : Request) (rng : Option (List Nat)) : HandleAuthResult :=
  if req.method ≠ Method.Get then .Resp (.Auth (.Error .UnsupportedMethod))
  else
    match authQueryFromPairs (formDecode req.query) with
    | none => .Resp (.Auth (.Error .MalformedQuery))
    | some query =>
      match ClientId.tryFrom query.client_id with
      | .error _ => .Resp (.Auth (.Error .MalformedClientId))
      | .ok client_id =>
        if ¬ client_id.check_mac o.client_hmac_secret query.redirect_uri then
          .Resp (.Auth (.Error .InvalidClientMAC))
        else
          match urlParse query.redirect_uri with
          | none => .Resp (.Auth (.Error .MalformedRedirectUri))
          | some u =>
            if u.scheme ≠ "https" ∨ u.fragment.isSome then
              .Resp (.Auth (.Error .MalformedRedirectUri))
            else
              match u.query with
              | some ruq =>
                match rusfFromPairs (formDecode ruq) with
                | none => .Resp (.Auth (.Error .MalformedRedirectUri))
                | some fields =>
                  if ¬ fields.empty then
                    .Resp (.Auth (.Error .MalformedRedirectUri))
                  else handle_auth_validated o is_valid_client query client_id rng
              | none => handle_auth_validated o is_valid_client query client_id rng

/-- `OidcImpl::grant_code`: unseal the handle, run the id-token creator,
seal the auth code (with the client id as aad), answer with a form-POST
bounce.  The creator's `Result<String, ()>` is modelled as
`Option String`. -/
def grant_code (o : OidcImpl) (auth_request_handle : String)
    (id_token_creator : TokenCreationData → Option String)
    (rng : Option (List Nat)) : Except Error Response :=
  match AuthRequestData.from_handle auth_request_handle
      o.auth_request_handle_secret with
  | .error e => .error e
  | .ok data =>
    match id_token_creator ⟨data.nonce, data.client_id, data.scope⟩ with
    | none => .error .IdTokenCreation
    | some id_token =>
      match AuthCodeData.to_code ⟨id_token⟩ o.auth_code_secret data.client_id
          rng with
      | none =>
        .ok (.Grant ⟨data.redirect_uri, .Error .ServerError (some data.state)⟩)
      | some code =>
        .ok (.Grant ⟨data.redirect_uri, .CodeGrant code data.state⟩)

/-- `OidcImpl::handle_token`: the full validation pipeline of the token
endpoint. -/
def handle_token (o : OidcImpl) (req : Request) : TokenResponse :=
  if req.method ≠ Method.Post then .Error .UnsupportedMethod
  else if req.content_type ≠ some ContentType.UrlEncoded then
    .Error .UnsupportedContentType
  else
    match tokenQueryFromPairs (formDecode req.body) with
    | none => .Error .MalformedRequestBody
    | some query =>
      if query.grant_type ≠ "authorization_code" then
        .Error .UnsupportedGrantType
      else
        match req.authorization with
        | none => .Error .MissingClientCredentials
        | some auth =>
          match BasicAuth.Credentials.from_str auth with
          | .error _ => .Error .MalformedClientCredentials
          | .ok creds =>
            if creds.userid ≠ query.client_id then
              .Error .InvalidClientCredentials
            else if ¬ ClientId.check_password creds.userid
                o.client_password_secret creds.password then
              .Error .InvalidClientCredentials
            else
              match AuthCodeData.from_code query.code o.auth_code_secret
                  query.client_id with
              | .error _ => .Error .InvalidAuthCode
              | .ok acd =>
                match ClientId.tryFrom query.client_id with
                | .error _ => .Error .MalformedClientId
                | .ok client_id =>
                  if ¬ client_id.check_mac o.client_hmac_secret
                      query.redirect_uri then
                    .Error .InvalidClientMAC
                  else .IdToken acd.id_token

/-! ### Generic instances and helper lemmas -/

instance {ε α : Type} [DecidableEq ε] [DecidableEq α] : DecidableEq (Except ε α)
  | .error x, .error y =>
    if h : x = y then isTrue (by rw [h])
    else isFalse (by intro hh; cases hh; exact h rfl)
  | .error _, .ok _ => isFalse (by intro h; cases h)
  | .ok _, .error _ => isFalse (by intro h; cases h)
  | .ok x, .ok y =>
    if h : x = y then isTrue (by rw [h])
    else isFalse (by intro hh; cases hh; exact h rfl)

theorem strData_append (s t : String) : (s ++ t).data = s.data ++ t.data := rfl

theorem strData_mk (l : List Char) : (String.mk l).data = l := rfl

theorem strLength_data (s : String) : s.length = s.data.length := rfl

theorem rfindChar_not_mem {c : Char} {l : List Char} (h : c ∉ l) :
    rfindChar c l = none := by
  induction l with
  | nil => rfl
  | cons x xs ih =>
    rw [List.mem_cons, not_or] at h
    simp only [rfindChar, ih h.2]
    rw [if_neg (fun he => h.1 he.symm)]

theorem rfindChar_append_last {c : Char} {a m : List Char} (hm : c ∉ m) :
    rfindChar c (a ++ c :: m) = some a.length := by
  induction a with
  | nil => simp [rfindChar, rfindChar_not_mem hm]
  | cons x xs ih => simp [rfindChar, ih]

theorem append_zero_inj :
    ∀ {xs ys xr yr : List Nat}, 0 ∉ xs → 0 ∉ ys →
      xs ++ 0 :: xr = ys ++ 0 :: yr → xs = ys ∧ xr = yr := by
  intro xs
  induction xs with
  | nil =>
    intro ys xr yr _ hy h
    cases ys with
    | nil => simpa using h
    | cons y ys' =>
      simp only [List.nil_append, List.cons_append, List.cons.injEq] at h
      exact absurd (h.1 ▸ List.mem_cons_self y ys') hy
  | cons x xs' ih =>
    intro ys xr yr hx hy h
    cases ys with
    | nil =>
      simp only [List.cons_append, List.nil_append, List.cons.injEq] at h
      exact absurd (h.1 ▸ List.mem_cons_self x xs') hx
    | cons y ys' =>
      simp only [List.cons_append, List.cons.injEq] at h
      obtain ⟨hxy, hrest⟩ := h
      have := ih (fun hmem => hx (List.mem_cons_of_mem x hmem))
        (fun hmem => hy (List.mem_cons_of_mem y hmem)) hrest
      exact ⟨by rw [hxy, this.1], this.2⟩

theorem natListLeB_cons_iff {x y : Nat} {xs ys : List Nat} :
    natListLeB (x :: xs) (y :: ys) = true ↔
      x < y ∨ (x = y ∧ natListLeB xs ys = true) := by
  simp only [natListLeB]
  split_ifs with h1 h2
  · exact iff_of_true rfl (Or.inl h1)
  · constructor
    · intro h; exact Or.inr ⟨h2, h⟩
    · rintro (h | ⟨_, h⟩)
      · omega
      · exact h
  · constructor
    · intro h; exact absurd h (by simp)
    · rintro (h | ⟨h, _⟩) <;> omega

theorem natListLeB_total : ∀ (a b : List Nat),
    natListLeB a b = true ∨ natListLeB b a = true := by
  intro a
  induction a with
  | nil => intro b; left; rfl
  | cons x xs ih =>
    intro b
    cases b with
    | nil => right; rfl
    | cons y ys =>
      rcases Nat.lt_trichotomy x y with h | h | h
      · left; exact natListLeB_cons_iff.mpr (Or.inl h)
      · rcases ih ys with h2 | h2
        · left; exact natListLeB_cons_iff.mpr (Or.inr ⟨h, h2⟩)
        · right; exact natListLeB_cons_iff.mpr (Or.inr ⟨h.symm, h2⟩)
      · right; exact natListLeB_cons_iff.mpr (Or.inl h)

theorem natListLeB_trans : ∀ (a b c : List Nat),
    natListLeB a b = true → natListLeB b c = true → natListLeB a c = true := by
  intro a
  induction a with
  | nil => intro b c _ _; rfl
  | cons x xs ih =>
    intro b c hab hbc
    cases b with
    | nil => simp [natListLeB] at hab
    | cons y ys =>
      cases c with
      | nil => simp [natListLeB] at hbc
      | cons z zs =>
        rcases natListLeB_cons_iff.mp hab with h1 | ⟨h1, h1r⟩ <;>
          rcases natListLeB_cons_iff.mp hbc with h2 | ⟨h2, h2r⟩
        · exact natListLeB_cons_iff.mpr (Or.inl (by omega))
        · exact natListLeB_cons_iff.mpr (Or.inl (by omega))
        · exact natListLeB_cons_iff.mpr (Or.inl (by omega))
        · exact natListLeB_cons_iff.mpr (Or.inr ⟨by omega, ih ys zs h1r h2r⟩)

theorem natListLeB_antisymm : ∀ (a b : List Nat),
    natListLeB a b = true → natListLeB b a = true → a = b := by
  intro a
  induction a with
  | nil =>
    intro b _ hba
    cases b with
    | nil => rfl
    | cons y ys => simp [natListLeB] at hba
  | cons x xs ih =>
    intro b hab hba
    cases b with
    | nil => simp [natListLeB] at hab
    | cons y ys =>
      rcases natListLeB_cons_iff.mp hab with h1 | ⟨h1, h1r⟩ <;>
        rcases natListLeB_cons_iff.mp hba with h2 | ⟨h2, h2r⟩ <;>
        try omega
      rw [h1, ih ys h1r h2r]

instance : IsTotal String strRel :=
  ⟨fun a b => natListLeB_total (strBytes a) (strBytes b)⟩

instance : IsTrans String strRel :=
  ⟨fun a b c => natListLeB_trans (strBytes a) (strBytes b) (strBytes c)⟩

instance : IsAntisymm String strRel :=
  ⟨fun a b hab hba =>
    strBytes_inj (natListLeB_antisymm (strBytes a) (strBytes b) hab hba)⟩

theorem splitChar_ne_nil (c : Char) (l : List Char) : splitChar c l ≠ [] := by
  cases l with
  | nil => simp [splitChar]
  | cons x xs =>
    simp only [splitChar]
    split_ifs
    · simp
    · rcases h : splitChar c xs with _ | ⟨t, ts⟩ <;> simp

theorem splitChar_no_occ {c : Char} :
    ∀ {t : List Char}, c ∉ t → splitChar c t = [t] := by
  intro t
  induction t with
  | nil => intro _; rfl
  | cons x xs ih =>
    intro h
    rw [List.mem_cons, not_or] at h
    simp only [splitChar, ih h.2]
    rw [if_neg (fun he => h.1 he.symm)]

theorem splitChar_append_sep {c : Char} :
    ∀ {t rest : List Char}, c ∉ t →
      splitChar c (t ++ c :: rest) = t :: splitChar c rest := by
  intro t
  induction t with
  | nil => intro rest _; simp [splitChar]
  | cons x xs ih =>
    intro rest h
    rw [List.mem_cons, not_or] at h
    simp only [List.cons_append, splitChar, List.append_eq, ih h.2]
    rw [if_neg (fun he => h.1 he.symm)]

def joinSpaceChars : List (List Char) → List Char
  | [] => []
  | [t] => t
  | t :: ts => t ++ ' ' :: joinSpaceChars ts

/-- The space-join of a token list, as a string. -/
def joinSpace (l : List String) : String :=
  String.mk (joinSpaceChars (l.map String.data))

theorem splitChar_joinSpaceChars :
    ∀ {ts : List (List Char)}, ts ≠ [] → (∀ t ∈ ts, ' ' ∉ t) →
      splitChar ' ' (joinSpaceChars ts) = ts := by
  intro ts
  induction ts with
  | nil => intro h _; exact absurd rfl h
  | cons t ts' ih =>
    intro _ hfree
    cases ts' with
    | nil =>
      exact splitChar_no_occ (hfree t (List.mem_cons_self t []))
    | cons t2 ts2 =>
      have : joinSpaceChars (t :: t2 :: ts2) = t ++ ' ' :: joinSpaceChars (t2 :: ts2) := rfl
      rw [this, splitChar_append_sep (hfree t (List.mem_cons_self _ _)),
        ih (by simp) (fun u hu => hfree u (List.mem_cons_of_mem t hu))]

/-! ### Envelope round-trip lemmas -/

theorem unsealEnvelope_sealEnvelope {α : Type} (ser : α → List Nat)
    (deser : List Nat → Option α) (obj : α) (key aad nonce : List Nat)
    (key' aad' : List Nat) {env : String}
    (hlen : nonce.length = 24) (hv : ∀ b ∈ nonce, b < 256)
    (henv : sealEnvelope ser obj key aad (some nonce) = some env) :
    unsealEnvelope deser env key' aad' =
      if key = key' ∧ aad = aad' then
        match deser (ser obj) with
        | some o => .ok o
        | none => .error .Failure
      else .error .Failure := by
  have henv2 : env = b64EncodeStr true (nonce ++ aeadEncrypt key nonce aad (ser obj)) := by
    simpa [sealEnvelope] using henv.symm
  subst henv2
  have hvall : ∀ b ∈ nonce ++ aeadEncrypt key nonce aad (ser obj), b < 256 := by
    intro b hb
    rcases List.mem_append.mp hb with hb | hb
    · exact hv b hb
    · exact aeadEncrypt_lt key nonce aad (ser obj) b hb
  have hdec : b64DecodeStr true (b64EncodeStr true
      (nonce ++ aeadEncrypt key nonce aad (ser obj))) =
      some (nonce ++ aeadEncrypt key nonce aad (ser obj)) := by
    simpa [b64DecodeStr, b64EncodeStr] using
      b64Decode_encode true (nonce ++ aeadEncrypt key nonce aad (ser obj)) hvall
  simp only [unsealEnvelope, hdec]
  have hlen2 : ¬ ((nonce ++ aeadEncrypt key nonce aad (ser obj)).length < 24) := by
    simp only [List.length_append, hlen]
    omega
  rw [if_neg hlen2]
  have htake : (nonce ++ aeadEncrypt key nonce aad (ser obj)).take 24 = nonce := by
    rw [← hlen]
    exact List.take_left nonce _
  have hdrop : (nonce ++ aeadEncrypt key nonce aad (ser obj)).drop 24 =
      aeadEncrypt key nonce aad (ser obj) := by
    rw [← hlen]
    exact List.drop_left nonce _
  rw [htake, hdrop, aeadDecrypt_frames]
  by_cases h : key = key' ∧ aad = aad'
  · rw [if_pos ⟨h.1, rfl, h.2⟩, if_pos h]
    rcases hde : deser (ser obj) with _ | o <;> simp [hde]
  · rw [if_neg (by tauto), if_neg h]

theorem deserAuthCodeData_ser (d : AuthCodeData) :
    deserAuthCodeData (serAuthCodeData d) = some d := by
  have h := readNatList_encNatList (strBytes d.id_token) []
  rw [List.append_nil] at h
  simp [serAuthCodeData, deserAuthCodeData, h, bytesToStr_strBytes]

theorem deserAuthRequestData_ser (d : AuthRequestData) :
    deserAuthRequestData (serAuthRequestData d) = some d := by
  have h5 := readNatList_encNatList (strBytes d.client_id) []
  rw [List.append_nil] at h5
  simp [serAuthRequestData, deserAuthRequestData, List.append_assoc,
    readNatList_encNatList, h5, bytesToStr_strBytes]

/-! ### Concrete instances used by the evaluation theorems -/

def oidcEx : OidcImpl := newOidc (strBytes "secret")

def nonceEx : List Nat := List.replicate 24 7

def cidEx : ClientId := ClientId.new "foo" oidcEx.client_hmac_secret "https://v.com"

def ivcTrue : ClientId → String → Bool := fun _ _ => true

/-- Authorization request that passes every check up to the scope check,
with `scope=a b oidc` (three tokens, sorted, containing `oidc`). -/
def reqScopeBug : Request :=
  ⟨Method.Get,
   "response_type=code&client_id=" ++ cidEx.data ++
     "&redirect_uri=https://v.com&response_mode=form_post&state=st&nonce=nc&scope=a+b+oidc",
   "", none, none⟩

def authQueryScopeBug : AuthQuery :=
  ⟨"code", cidEx.data, "https://v.com", some "form_post", some "a b oidc",
    some "st", some "nc", none, none, none, none, none, none, none⟩

/-- The same request with `scope=oidc`. -/
def reqScopeOk : Request :=
  ⟨Method.Get,
   "response_type=code&client_id=" ++ cidEx.data ++
     "&redirect_uri=https://v.com&response_mode=form_post&state=st&nonce=nc&scope=oidc",
   "", none, none⟩

def handleScopeOk : String :=
  ((AuthRequestData.mk "st" "nc" "https://v.com" "oidc" cidEx.data).to_handle
    oidcEx.auth_request_handle_secret (some nonceEx)).getD ""

/-- C1 failing scenario evaluated. -/
theorem c1_eval :
    handle_auth oidcEx ivcTrue reqScopeBug (some nonceEx)
      = err_resp authQueryScopeBug RedirectUri.Err.InvalidScope ∧
    handle_auth oidcEx ivcTrue reqScopeOk (some nonceEx)
      = HandleAuthResult.Handler handleScopeOk := by
  constructor
  · rfl
  · rfl

/-- C1: the claim fails on the code.  `handle_auth` uses
`scope.binary_search_by(|x| "oidc".cmp(x))` — the comparator arguments
are reversed relative to the ascending sort order of the token list, so
the search can miss `"oidc"` even though it is present.  Concretely,
for the request `reqScopeBug` (which passes validation steps 1–11 and
whose scope `"a b oidc"` parses to the sorted token list
`["a", "b", "oidc"]` containing `"oidc"`), `handle_auth` returns the
`invalid_scope` form-POST redirect instead of proceeding to the
`is_valid_client` check; swapping the scope for `"oidc"` (request
`reqScopeOk`, all other parameters equal) reaches the handler. -/
theorem scope_check_binary_search_misses_oidc :
    handle_auth oidcEx ivcTrue reqScopeBug (some nonceEx)
      = err_resp authQueryScopeBug RedirectUri.Err.InvalidScope ∧
    parse_scope "a b oidc" = .ok ["a", "b", "oidc"] ∧
    "oidc" ∈ ["a", "b", "oidc"] ∧
    binarySearchBy ["a", "b", "oidc"] (fun x => strCmp "oidc" x) = .error 0 ∧
    handle_auth oidcEx ivcTrue reqScopeOk (some nonceEx)
      = HandleAuthResult.Handler handleScopeOk := by
  refine ⟨c1_eval.1, by decide, by decide, by decide, c1_eval.2⟩

/-! ### C10 scenario: token request with a tilde-less client id -/

def pwHub : String := ClientId.password "hub" oidcEx.client_password_secret

def codeHub : String :=
  ((AuthCodeData.mk "idtok").to_code oidcEx.auth_code_secret "hub"
    (some nonceEx)).getD ""

def authHub : String := "Basic " ++ b64EncodeStr false (strBytes ("hub:" ++ pwHub))

def reqTokenHub : Request :=
  ⟨Method.Post, "",
   "grant_type=authorization_code&code=" ++ codeHub ++
     "&client_id=hub&redirect_uri=uri",
   some ContentType.UrlEncoded, some authHub⟩

/-- C10: a token-endpoint request whose body `client_id` (`"hub"`)
contains no `~`, whose Basic-auth userid equals it, whose Basic-auth
password is the correctly derived HMAC password for that exact string,
and whose `code` unseals under `"hub"` as AAD, makes `handle_token`
reach the re-parse of `client_id` and return the direct error
`MalformedClientId` — an outcome the spec's token-endpoint pipeline
does not list. -/
theorem handle_token_malformed_client_id_reachable :
    handle_token oidcEx reqTokenHub = .Error .MalformedClientId ∧
    ('~' ∈ "hub".data → False) ∧
    BasicAuth.Credentials.from_str authHub = .ok ⟨"hub", pwHub⟩ ∧
    pwHub = ClientId.password "hub" oidcEx.client_password_secret ∧
    ClientId.check_password "hub" oidcEx.client_password_secret pwHub = true ∧
    AuthCodeData.from_code codeHub oidcEx.auth_code_secret "hub"
      = .ok ⟨"idtok"⟩ ∧
    ClientId.tryFrom "hub" = .error .MalformedClientId := by
  refine ⟨rfl, by decide, rfl, rfl, by decide, rfl, rfl⟩

/-! ### C7: html escape -/

theorem flatten_map_singleton (l : List Char) :
    (l.map (fun c => [c])).flatten = l := by
  induction l with
  | nil => rfl
  | cons x xs ih => simp [ih]

theorem escape_id_of_no_special (s : String) (h : escapeBorrowed s = true) :
    escape s = s := by
  unfold escapeBorrowed at h
  rw [Bool.not_eq_true'] at h
  have hall : ∀ c ∈ s.data, specialChar c = false := by
    intro c hc
    by_contra hb
    rw [Bool.not_eq_false] at hb
    rw [List.any_eq_false] at h
    exact h c hc hb
  have hmap : ∀ c ∈ s.data, escapeChar c = [c] := by
    intro c hc
    have hs := hall c hc
    simp only [specialChar, Bool.or_eq_false_iff, decide_eq_false_iff_not] at hs
    simp [escapeChar, hs.1.1.1.1, hs.1.1.1.2, hs.1.1.2, hs.1.2, hs.2]
  unfold escape
  rw [List.map_congr_left hmap, flatten_map_singleton]

/-- C7: `html::escape` does not replace the apostrophe with the
apostrophe's HTML entity: the code emits `&#27;`, the numeric character
reference of U+001B (escape); the apostrophe (0x27 = decimal 39) has
entity `&#39;`.  The other four special characters are replaced with
their correct entities, and the function is the identity on strings
without special characters (the source's `Cow::Borrowed` fast path). -/
theorem escape_entity_evaluation :
    escape "\x27" = "&#27;" ∧
    "&#27;" ≠ "&#39;" ∧
    escape "<>&\"\x27" = "&lt;&gt;&amp;&quot;&#27;" ∧
    escape "<" = "&lt;" ∧ escape ">" = "&gt;" ∧ escape "&" = "&amp;" ∧
    escape "\"" = "&quot;" ∧
    (∀ s : String, escapeBorrowed s = true → escape s = s) := by
  exact ⟨rfl, by decide, rfl, rfl, rfl, rfl, rfl, escape_id_of_no_special⟩

theorem escape_entity_evaluation_witness :
    escapeBorrowed "no special characters" = true ∧
    escape "no special characters" = "no special characters" :=
  ⟨by decide,
   escape_entity_evaluation.2.2.2.2.2.2.2 "no special characters" (by decide)⟩

/-! ### C9: scope parsing -/

theorem str_eq_empty_iff (t : String) : t = "" ↔ t.data = [] := by
  constructor
  · intro h; rw [h]
  · intro h
    rcases t with ⟨d⟩
    rw [strData_mk] at h
    rw [h]

theorem scopeCharOk_iff (c : Char) :
    scopeCharOk c = true ↔
      (c.toNat = 0x21 ∨ (0x23 ≤ c.toNat ∧ c.toNat ≤ 0x5b) ∨
        (0x5d ≤ c.toNat ∧ c.toNat ≤ 0x7e)) := by
  simp only [scopeCharOk, Bool.or_eq_true, Bool.and_eq_true, decide_eq_true_eq]
  tauto

theorem scopeTokenOk_iff (t : String) :
    scopeTokenOk t = true ↔
      (t ≠ "" ∧ ∀ c ∈ t.data,
        c.toNat = 0x21 ∨ (0x23 ≤ c.toNat ∧ c.toNat ≤ 0x5b) ∨
          (0x5d ≤ c.toNat ∧ c.toNat ≤ 0x7e)) := by
  unfold scopeTokenOk
  rw [Bool.and_eq_true, Bool.not_eq_true', List.all_eq_true]
  constructor
  · rintro ⟨h1, h2⟩
    constructor
    · intro he
      rw [str_eq_empty_iff] at he
      rw [he] at h1
      simp at h1
    · intro c hc
      exact (scopeCharOk_iff c).mp (h2 c hc)
  · rintro ⟨h1, h2⟩
    constructor
    · rcases hd : t.data with _ | ⟨c, cs⟩
      · exact absurd ((str_eq_empty_iff t).mpr hd) h1
      · rfl
    · intro c hc
      exact (scopeCharOk_iff c).mpr (h2 c hc)

theorem scopeTokens_ne_nil (s : String) : scopeTokens s ≠ [] := by
  unfold scopeTokens
  intro h
  rw [List.map_eq_nil_iff] at h
  exact splitChar_ne_nil ' ' s.data h

theorem parse_scope_join (l : List String) (hne : l ≠ [])
    (hok : ∀ t ∈ l, scopeTokenOk t = true)
    (hsorted : List.Sorted strRel l) :
    parse_scope (joinSpace l) = .ok l := by
  have hfree : ∀ d ∈ l.map String.data, ' ' ∉ d := by
    intro d hd
    obtain ⟨t, ht, rfl⟩ := List.mem_map.mp hd
    intro hsp
    have hcl := ((scopeTokenOk_iff t).mp (hok t ht)).2 ' ' hsp
    exact absurd hcl (by decide)
  have hsplit : scopeTokens (joinSpace l) = l := by
    have h0 : scopeTokens (joinSpace l)
        = (splitChar ' ' (joinSpaceChars (l.map String.data))).map String.mk := rfl
    rw [h0, splitChar_joinSpaceChars (by simpa using hne) hfree, List.map_map]
    rw [show List.map (String.mk ∘ String.data) l = List.map id l from
      List.map_congr_left (fun t _ => rfl), List.map_id]
  unfold parse_scope
  rw [hsplit, if_pos (List.all_eq_true.mpr hok)]
  rw [hsorted.insertionSort_eq]

/-- C9: `parse_scope` splits on single spaces and returns
`Err(InvalidScope)` iff some token is empty or some token character is
outside the set 0x21 ∪ [0x23, 0x5b] ∪ [0x5d, 0x7e]; otherwise the output
is the sorted token list, and parsing the space-join of that output
yields the same sorted list again. -/
theorem parse_scope_spec (s : String) :
    (parse_scope s = .error .InvalidScope ↔
      ∃ t ∈ scopeTokens s, t = "" ∨ ∃ c ∈ t.data,
        ¬(c.toNat = 0x21 ∨ (0x23 ≤ c.toNat ∧ c.toNat ≤ 0x5b) ∨
          (0x5d ≤ c.toNat ∧ c.toNat ≤ 0x7e))) ∧
    (∀ l, parse_scope s = .ok l →
      l = List.insertionSort strRel (scopeTokens s) ∧
      List.Sorted strRel l ∧
      parse_scope (joinSpace l) = .ok l) := by
  constructor
  · unfold parse_scope
    split_ifs with hall
    · constructor
      · intro h; exact absurd h (by simp)
      · rintro ⟨t, ht, hbad⟩
        exfalso
        have hok := (scopeTokenOk_iff t).mp (List.all_eq_true.mp hall t ht)
        rcases hbad with hempty | ⟨c, hc, hbadc⟩
        · exact hok.1 hempty
        · exact hbadc (hok.2 c hc)
    · constructor
      · intro _
        have hne : ¬ ∀ t ∈ scopeTokens s, scopeTokenOk t = true :=
          fun hc => hall (List.all_eq_true.mpr hc)
        push_neg at hne
        obtain ⟨t, ht, hnot⟩ := hne
        refine ⟨t, ht, ?_⟩
        by_cases hemp : t = ""
        · exact Or.inl hemp
        · right
          have hne2 : ¬ (t ≠ "" ∧ ∀ c ∈ t.data,
              c.toNat = 0x21 ∨ (0x23 ≤ c.toNat ∧ c.toNat ≤ 0x5b) ∨
                (0x5d ≤ c.toNat ∧ c.toNat ≤ 0x7e)) :=
            fun hc2 => hnot ((scopeTokenOk_iff t).mpr hc2)
          push_neg at hne2
          obtain ⟨c, hc, hb1, hb2, hb3⟩ := hne2 hemp
          exact ⟨c, hc, fun h => by rcases h with h | h | h <;> omega⟩
      · intro _; rfl
  · intro l hl
    unfold parse_scope at hl
    split_ifs at hl with hall
    · have hleq : l = List.insertionSort strRel (scopeTokens s) :=
        (Except.ok.inj hl).symm
      subst hleq
      have hmem_ok : ∀ t ∈ List.insertionSort strRel (scopeTokens s),
          scopeTokenOk t = true := by
        intro t ht
        exact List.all_eq_true.mp hall t ((List.mem_insertionSort strRel).mp ht)
      have hl_ne : List.insertionSort strRel (scopeTokens s) ≠ [] := by
        intro h
        have hp := List.perm_insertionSort strRel (scopeTokens s)
        rw [h] at hp
        exact scopeTokens_ne_nil s hp.symm.eq_nil
      exact ⟨rfl, List.sorted_insertionSort strRel _,
        parse_scope_join _ hl_ne hmem_ok (List.sorted_insertionSort strRel _)⟩

theorem parse_scope_spec_witness :
    parse_scope "b a" = .ok ["a", "b"] ∧
    parse_scope (joinSpace ["a", "b"]) = .ok ["a", "b"] :=
  ⟨by decide, ((parse_scope_spec "b a").2 ["a", "b"] (by decide)).2.2⟩

/-! ### C8: status codes and headers -/

/-- C8: every direct error (`S52Error`) of the authorization and token
endpoints renders with status 400 — the 401 (`unauthorized_client`,
with `WWW-Authenticate: Basic`) case of `Response::status` is never hit
because no `S52Error` maps to that RFC 6749 code; form-POST bounces,
including the bounce carrying `unauthorized_client`, and token success
responses render with status 200; the `WWW-Authenticate: Basic` header
is present exactly on 401 responses. -/
theorem response_status_and_www_authenticate :
    (∀ e : S52Error,
      (Response.Auth (.Error e)).status
          = (if S52Error.error e = "unauthorized_client" then 401 else 400) ∧
      (Response.Token (.Error e)).status
          = (if S52Error.error e = "unauthorized_client" then 401 else 400) ∧
      (Response.Auth (.Error e)).status = 400 ∧
      (Response.Token (.Error e)).status = 400) ∧
    (∀ rur : RedirectUri.Response,
      (Response.Auth (.FormPost rur)).status = 200 ∧
      (Response.Grant rur).status = 200) ∧
    (∀ (uri : String) (st : Option String),
      (Response.Auth (.FormPost
        ⟨uri, .Error .UnauthorizedClient st⟩)).status = 200) ∧
    (∀ t : String, (Response.Token (.IdToken t)).status = 200) ∧
    (∀ r : Response,
      ("WWW-Authenticate", "Basic") ∈ r.headers ↔ r.status = 401) := by
  refine ⟨?_, ?_, ?_, ?_, ?_⟩
  · intro e
    exact ⟨rfl, rfl, by cases e <;> rfl, by cases e <;> rfl⟩
  · intro rur
    exact ⟨rfl, rfl⟩
  · intro uri st
    rfl
  · intro t
    rfl
  · intro r
    by_cases h : r.status = 401
    · simp [Response.headers, h]
    · simp [Response.headers, h]

/-! ### C2: envelope round-trip and AAD binding -/

/-- C2: for every serializable payload (any type with an exact
serializer/deserializer pair, as rmp_serde provides), unsealing a sealed
envelope under the same key and AAD returns exactly the payload;
under a different key or a different AAD the unseal fails with the
single opaque `Failure`; in particular an `auth_code` sealed with
client A's full client id as AAD never unseals when client B's id is
supplied as AAD. -/
theorem seal_unseal_roundtrip_and_aad_binding :
    (∀ {α : Type} (ser : α → List Nat) (deser : List Nat → Option α)
      (p : α) (key aad nonce : List Nat) (env : String),
      (∀ x, deser (ser x) = some x) →
      nonce.length = 24 → (∀ b ∈ nonce, b < 256) →
      sealEnvelope ser p key aad (some nonce) = some env →
      unsealEnvelope deser env key aad = .ok p ∧
      (∀ key', key' ≠ key →
        unsealEnvelope deser env key' aad = .error .Failure) ∧
      (∀ aad', aad' ≠ aad →
        unsealEnvelope deser env key aad' = .error .Failure)) ∧
    (∀ (d : AuthCodeData) (key nonce : List Nat) (cidA cidB : String)
      (code : String),
      nonce.length = 24 → (∀ b ∈ nonce, b < 256) → cidA ≠ cidB →
      AuthCodeData.to_code d key cidA (some nonce) = some code →
      AuthCodeData.from_code code key cidB = .error .InvalidAuthCode) := by
  constructor
  · intro α ser deser p key aad nonce env hds hlen hv henv
    refine ⟨?_, ?_, ?_⟩
    · rw [unsealEnvelope_sealEnvelope ser deser p key aad nonce key aad
        hlen hv henv, if_pos ⟨rfl, rfl⟩, hds p]
    · intro key' hne
      rw [unsealEnvelope_sealEnvelope ser deser p key aad nonce key' aad
        hlen hv henv, if_neg (fun hc => hne hc.1.symm)]
    · intro aad' hne
      rw [unsealEnvelope_sealEnvelope ser deser p key aad nonce key aad'
        hlen hv henv, if_neg (fun hc => hne hc.2.symm)]
  · intro d key nonce cidA cidB code hlen hv hne hcode
    unfold AuthCodeData.from_code
    rw [unsealEnvelope_sealEnvelope serAuthCodeData deserAuthCodeData d key
      (strBytes cidA) nonce key (strBytes cidB) hlen hv hcode,
      if_neg (fun hc => hne (strBytes_inj hc.2))]

def sealEx : String :=
  (sealEnvelope serAuthCodeData (AuthCodeData.mk "t") [1] [2]
    (some nonceEx)).getD ""

def codeExA : String :=
  ((AuthCodeData.mk "t").to_code [1] "A~x" (some nonceEx)).getD ""

theorem seal_unseal_roundtrip_witness :
    unsealEnvelope deserAuthCodeData sealEx [1] [2] = .ok ⟨"t"⟩ ∧
    AuthCodeData.from_code codeExA [1] "B~x" = .error .InvalidAuthCode :=
  ⟨(seal_unseal_roundtrip_and_aad_binding.1 serAuthCodeData
      deserAuthCodeData ⟨"t"⟩ [1] [2] nonceEx sealEx deserAuthCodeData_ser
      (by decide) (by decide) rfl).1,
   seal_unseal_roundtrip_and_aad_binding.2 ⟨"t"⟩ [1] nonceEx "A~x" "B~x"
      codeExA (by decide) (by decide) (by decide) rfl⟩

/-! ### C3: client-id codec -/

theorem append_cons_drop {α : Type} (a : List α) (c : α) (m : List α) :
    (a ++ c :: m).drop (a.length + 1) = m := by
  induction a with
  | nil => rfl
  | cons x xs ih => simp [ih]

theorem data_of_append (b : String) (m : List Char) :
    (b ++ "~" ++ String.mk m).data = b.data ++ '~' :: m := by
  rw [strData_append, strData_append, strData_mk, List.append_assoc]
  rfl

theorem bare_id_of_append (b : String) (m : List Char) :
    (ClientId.mk (b ++ "~" ++ String.mk m) b.length).bare_id = b := by
  unfold ClientId.bare_id
  rw [data_of_append]
  show String.mk ((b.data ++ '~' :: m).take b.data.length) = b
  rw [List.take_left]

theorem mac_of_append (b : String) (m : List Char) :
    (ClientId.mk (b ++ "~" ++ String.mk m) b.length).mac = String.mk m := by
  unfold ClientId.mac
  rw [data_of_append]
  show String.mk ((b.data ++ '~' :: m).drop (b.data.length + 1)) = _
  rw [append_cons_drop]

theorem check_mac_append (b : String) (m : List Char) (secret : List Nat)
    (uri : String) :
    (ClientId.mk (b ++ "~" ++ String.mk m) b.length).check_mac secret uri
      = match b64Decode true m with
        | none => false
        | some mac => decide (ClientId.compute_mac b secret uri = mac) := by
  unfold ClientId.check_mac
  simp only [mac_of_append, bare_id_of_append]
  rfl

theorem zero_not_mem_strBytes {s : String}
    (h : is_printable_ascii s.data = true) : 0 ∉ strBytes s := by
  intro hm
  obtain ⟨c, hc, hc0⟩ := List.mem_map.mp hm
  have hp := List.all_eq_true.mp h c hc
  simp only [Bool.and_eq_true, decide_eq_true_eq] at hp
  omega

theorem compute_mac_inj {b b' uri uri' : String} {secret secret' : List Nat}
    (hb : is_printable_ascii b.data = true)
    (hb' : is_printable_ascii b'.data = true)
    (h : ClientId.compute_mac b' secret' uri'
        = ClientId.compute_mac b secret uri) :
    secret' = secret ∧ b' = b ∧ uri' = uri := by
  unfold ClientId.compute_mac at h
  obtain ⟨hsec, hmsg⟩ := hmac_sha256_inj h
  obtain ⟨hbb, huu⟩ := append_zero_inj (zero_not_mem_strBytes hb')
    (zero_not_mem_strBytes hb) hmsg
  exact ⟨hsec, strBytes_inj hbb, strBytes_inj huu⟩

/-- C3: for a printable-ASCII `bare_id` (which may itself contain `~`)
and any `redirect_uri`: the generated id is
`bare_id ++ "~" ++ base64url(mac)`; it parses back (split at the last
`~`, both parts may syntactically be empty, e.g. the string `"~"`);
`check_mac` with the same secret and uri holds; changing the secret,
the bare id, or the redirect uri makes `check_mac` false; and any
proper prefix of the encoded MAC fails to verify. -/
theorem client_id_mac_roundtrip (bareId uri : String) (secret : List Nat)
    (hba : is_printable_ascii bareId.data = true) :
    (ClientId.new bareId secret uri).data
        = bareId ++ "~" ++
          b64EncodeStr true (ClientId.compute_mac bareId secret uri) ∧
    ClientId.tryFrom (ClientId.new bareId secret uri).data
        = .ok (ClientId.new bareId secret uri) ∧
    ClientId.tryFrom "~" = .ok ⟨"~", 0⟩ ∧
    (ClientId.new bareId secret uri).check_mac secret uri = true ∧
    (∀ secret', secret' ≠ secret →
      (ClientId.new bareId secret uri).check_mac secret' uri = false) ∧
    (∀ uri', uri' ≠ uri →
      (ClientId.new bareId secret uri).check_mac secret uri' = false) ∧
    (∀ bareId', is_printable_ascii bareId'.data = true → bareId' ≠ bareId →
      (ClientId.mk (bareId' ++ "~" ++
          b64EncodeStr true (ClientId.compute_mac bareId secret uri))
          bareId'.length).check_mac secret uri = false) ∧
    (∀ pfx : String,
      List.IsPrefix pfx.data
        (b64EncodeStr true (ClientId.compute_mac bareId secret uri)).data →
      pfx ≠ b64EncodeStr true (ClientId.compute_mac bareId secret uri) →
      (ClientId.mk (bareId ++ "~" ++ pfx) bareId.length).check_mac secret uri
        = false) := by
  have hmacv : ∀ x ∈ ClientId.compute_mac bareId secret uri, x < 256 := by
    unfold ClientId.compute_mac
    exact hmac_sha256_lt _ _
  have hdec : b64Decode true
      (b64EncodeChars true (ClientId.compute_mac bareId secret uri))
      = some (ClientId.compute_mac bareId secret uri) :=
    b64Decode_encode true _ hmacv
  have hnew_eq : ClientId.new bareId secret uri
      = ClientId.mk (bareId ++ "~" ++
          String.mk (b64EncodeChars true (ClientId.compute_mac bareId secret uri)))
          bareId.length := rfl
  have hmchars := b64EncodeChars_printable true
    (ClientId.compute_mac bareId secret uri)
  have hnotilde : '~' ∉ b64EncodeChars true
      (ClientId.compute_mac bareId secret uri) :=
    fun hm => (hmchars '~' hm).2 rfl
  refine ⟨rfl, ?_, by decide, ?_, ?_, ?_, ?_, ?_⟩
  · -- parse-back
    unfold ClientId.tryFrom
    have hrf : rfindChar '~' (ClientId.new bareId secret uri).data.data
        = some bareId.length := by
      rw [hnew_eq, data_of_append, rfindChar_append_last hnotilde,
        strLength_data]
    have hpr : is_printable_ascii (ClientId.new bareId secret uri).data.data
        = true := by
      rw [hnew_eq, data_of_append]
      unfold is_printable_ascii at hba ⊢
      rw [List.all_append, hba, Bool.true_and, List.all_cons]
      rw [Bool.and_eq_true]
      refine ⟨by decide, ?_⟩
      rw [List.all_eq_true]
      intro c hc
      have := (hmchars c hc).1
      simp only [Bool.and_eq_true, decide_eq_true_eq]
      exact this
    rw [hrf]
    show (if is_printable_ascii (ClientId.new bareId secret uri).data.data = true
        then Except.ok (ClientId.mk (ClientId.new bareId secret uri).data
          bareId.length)
        else Except.error Error.MalformedClientId)
      = Except.ok (ClientId.new bareId secret uri)
    rw [if_pos hpr]
    rfl
  · -- check_mac with the same parameters
    rw [hnew_eq, check_mac_append, hdec]
    simp
  · -- different secret
    intro secret' hne
    rw [hnew_eq, check_mac_append, hdec]
    apply decide_eq_false
    intro heq
    exact hne (compute_mac_inj hba hba heq).1
  · -- different uri
    intro uri' hne
    rw [hnew_eq, check_mac_append, hdec]
    apply decide_eq_false
    intro heq
    exact hne (compute_mac_inj hba hba heq).2.2
  · -- different bare id
    intro bareId' hba' hne
    rw [show b64EncodeStr true (ClientId.compute_mac bareId secret uri)
        = String.mk (b64EncodeChars true (ClientId.compute_mac bareId secret uri))
      from rfl, check_mac_append, hdec]
    apply decide_eq_false
    intro heq
    exact hne (compute_mac_inj hba hba' heq).2.1
  · -- proper prefix of the encoded MAC
    intro pfx _ hne
    rcases pfx with ⟨pd⟩
    rw [check_mac_append]
    rcases hd : b64Decode true pd with _ | d
    · rfl
    · apply decide_eq_false
      intro heq
      apply hne
      have hcanon := b64Decode_canonical hd
      rw [heq, show b64EncodeStr true d = String.mk (b64EncodeChars true d)
        from rfl, hcanon]

theorem client_id_mac_roundtrip_witness :
    is_printable_ascii "foo".data = true ∧
    (ClientId.new "foo" [5] "u").check_mac [5] "u" = true :=
  ⟨by decide, (client_id_mac_roundtrip "foo" "u" [5] (by decide)).2.2.2.1⟩

/-! ### C6: grant_code error routing -/

theorem from_handle_error_eq (handle : String) (key : List Nat) :
    ∀ e, AuthRequestData.from_handle handle key = .error e →
      e = Error.InvalidAuthRequestHandle := by
  intro e he
  unfold AuthRequestData.from_handle at he
  rcases hu : unsealEnvelope deserAuthRequestData handle key [] with f | d <;>
    rw [hu] at he
  · exact (Except.error.inj he).symm
  · cases he

/-- C6: `grant_code` returns the caller-facing error
`InvalidAuthRequestHandle` exactly when the handle fails to unseal, and
`IdTokenCreation` exactly when the id-token creator fails; when sealing
the auth code fails it returns `Ok` with a `server_error` form-POST
bounce to the unsealed redirect uri carrying the original state; on
success it returns `Ok` with a form-POST bounce to the unsealed
redirect uri whose fields are exactly `code` and `state`. -/
theorem grant_code_error_routing (o : OidcImpl) (handle : String)
    (creator : TokenCreationData → Option String) (rng : Option (List Nat)) :
    (grant_code o handle creator rng = .error .InvalidAuthRequestHandle ↔
      AuthRequestData.from_handle handle o.auth_request_handle_secret
        = .error .InvalidAuthRequestHandle) ∧
    (grant_code o handle creator rng = .error .IdTokenCreation ↔
      ∃ d, AuthRequestData.from_handle handle o.auth_request_handle_secret
          = .ok d ∧ creator ⟨d.nonce, d.client_id, d.scope⟩ = none) ∧
    (∀ d id_token,
      AuthRequestData.from_handle handle o.auth_request_handle_secret
        = .ok d →
      creator ⟨d.nonce, d.client_id, d.scope⟩ = some id_token →
      (AuthCodeData.to_code ⟨id_token⟩ o.auth_code_secret d.client_id rng
          = none →
        grant_code o handle creator rng
          = .ok (.Grant ⟨d.redirect_uri,
              .Error .ServerError (some d.state)⟩)) ∧
      (∀ code,
        AuthCodeData.to_code ⟨id_token⟩ o.auth_code_secret d.client_id rng
            = some code →
        grant_code o handle creator rng
          = .ok (.Grant ⟨d.redirect_uri, .CodeGrant code d.state⟩) ∧
        (RedirectUri.ResponseData.CodeGrant code d.state).walk_fields
          = [("code", code), ("state", d.state)])) := by
  rcases hfh : AuthRequestData.from_handle handle o.auth_request_handle_secret
    with e | d
  · have he := from_handle_error_eq handle o.auth_request_handle_secret e hfh
    subst he
    simp only [grant_code, hfh]
    refine ⟨by simp, by simp, ?_⟩
    intro d idt hd
    exact absurd hd (by simp)
  · rcases hcr : creator ⟨d.nonce, d.client_id, d.scope⟩ with _ | idt
    · simp only [grant_code, hfh, hcr]
      refine ⟨by simp, ?_, ?_⟩
      · constructor
        · intro _
          exact ⟨d, rfl, hcr⟩
        · intro _
          trivial
      · intro d' idt' hd' hcr'
        injection hd' with hdd
        subst hdd
        rw [hcr] at hcr'
        cases hcr'
    · rcases htc : AuthCodeData.to_code ⟨idt⟩ o.auth_code_secret d.client_id
        rng with _ | code
      · simp only [grant_code, hfh, hcr, htc]
        refine ⟨by simp, by simp [hcr], ?_⟩
        intro d' idt' hd' hcr'
        injection hd' with hdd
        subst hdd
        rw [hcr] at hcr'
        injection hcr' with hii
        subst hii
        constructor
        · intro _
          rfl
        · intro code' hcode'
          rw [htc] at hcode'
          cases hcode'
      · simp only [grant_code, hfh, hcr, htc]
        refine ⟨by simp, by simp [hcr], ?_⟩
        intro d' idt' hd' hcr'
        injection hd' with hdd
        subst hdd
        rw [hcr] at hcr'
        injection hcr' with hii
        subst hii
        constructor
        · intro hnone
          rw [htc] at hnone
          cases hnone
        · intro code' hcode'
          rw [htc] at hcode'
          injection hcode' with hcc
          subst hcc
          exact ⟨rfl, rfl⟩

theorem grant_code_error_routing_witness :
    grant_code oidcEx "junk" (fun _ => some "x") (some nonceEx)
      = .error .InvalidAuthRequestHandle :=
  (grant_code_error_routing oidcEx "junk" (fun _ => some "x")
    (some nonceEx)).1.mpr (by decide)

/-! ### C4: token endpoint pipeline -/

theorem from_code_error_eq (code : String) (key : List Nat) (cid : String) :
    ∀ e, AuthCodeData.from_code code key cid = .error e →
      e = Error.InvalidAuthCode := by
  intro e he
  unfold AuthCodeData.from_code at he
  rcases hu : unsealEnvelope deserAuthCodeData code key (strBytes cid)
    with f | d <;> rw [hu] at he
  · exact (Except.error.inj he).symm
  · cases he

theorem tryFrom_error_eq (s : String) :
    ∀ e, ClientId.tryFrom s = .error e → e = Error.MalformedClientId := by
  intro e he
  unfold ClientId.tryFrom at he
  rcases hr : rfindChar '~' s.data with _ | pos <;> simp only [hr] at he
  · exact (Except.error.inj he).symm
  · by_cases h : is_printable_ascii s.data = true
    · rw [if_pos h] at he; cases he
    · rw [if_neg h] at he; exact (Except.error.inj he).symm

/-- C4 (amended): `handle_token` checks, in order with first-failure
short-circuit: non-POST method → `UnsupportedMethod`; content type
other than urlencoded → `UnsupportedContentType`; body not parsing as
the closed record → `MalformedRequestBody`; wrong grant type →
`UnsupportedGrantType`; missing Authorization → `MissingClientCredentials`;
Basic parse failure → `MalformedClientCredentials`; userid/password
mismatch → `InvalidClientCredentials`; unseal failure → `InvalidAuthCode`;
re-parse of `client_id` failing → `MalformedClientId` (the amendment:
the claim attributed this failure to `InvalidClientMAC`); MAC failure →
`InvalidClientMAC`; on success the `IdToken` response whose JSON body
carries the fixed `access_token` and `token_type` strings and the
unsealed id token. -/
theorem handle_token_pipeline (o : OidcImpl) (req : Request) :
    (handle_token o req = .Error .UnsupportedMethod ↔
      req.method ≠ Method.Post) ∧
    (handle_token o req = .Error .UnsupportedContentType ↔
      req.method = Method.Post ∧
      req.content_type ≠ some ContentType.UrlEncoded) ∧
    (handle_token o req = .Error .MalformedRequestBody ↔
      req.method = Method.Post ∧
      req.content_type = some ContentType.UrlEncoded ∧
      tokenQueryFromPairs (formDecode req.body) = none) ∧
    (handle_token o req = .Error .UnsupportedGrantType ↔
      req.method = Method.Post ∧
      req.content_type = some ContentType.UrlEncoded ∧
      ∃ q, tokenQueryFromPairs (formDecode req.body) = some q ∧
        q.grant_type ≠ "authorization_code") ∧
    (handle_token o req = .Error .MissingClientCredentials ↔
      req.method = Method.Post ∧
      req.content_type = some ContentType.UrlEncoded ∧
      ∃ q, tokenQueryFromPairs (formDecode req.body) = some q ∧
        q.grant_type = "authorization_code" ∧ req.authorization = none) ∧
    (handle_token o req = .Error .MalformedClientCredentials ↔
      req.method = Method.Post ∧
      req.content_type = some ContentType.UrlEncoded ∧
      ∃ q, tokenQueryFromPairs (formDecode req.body) = some q ∧
        q.grant_type = "authorization_code" ∧
        ∃ a, req.authorization = some a ∧
          ∃ e, BasicAuth.Credentials.from_str a = .error e) ∧
    (handle_token o req = .Error .InvalidClientCredentials ↔
      req.method = Method.Post ∧
      req.content_type = some ContentType.UrlEncoded ∧
      ∃ q, tokenQueryFromPairs (formDecode req.body) = some q ∧
        q.grant_type = "authorization_code" ∧
        ∃ a, req.authorization = some a ∧
          ∃ creds, BasicAuth.Credentials.from_str a = .ok creds ∧
            (creds.userid ≠ q.client_id ∨
              ClientId.check_password creds.userid o.client_password_secret
                creds.password = false)) ∧
    (handle_token o req = .Error .InvalidAuthCode ↔
      req.method = Method.Post ∧
      req.content_type = some ContentType.UrlEncoded ∧
      ∃ q, tokenQueryFromPairs (formDecode req.body) = some q ∧
        q.grant_type = "authorization_code" ∧
        ∃ a, req.authorization = some a ∧
          ∃ creds, BasicAuth.Credentials.from_str a = .ok creds ∧
            creds.userid = q.client_id ∧
            ClientId.check_password creds.userid o.client_password_secret
              creds.password = true ∧
            AuthCodeData.from_code q.code o.auth_code_secret q.client_id
              = .error .InvalidAuthCode) ∧
    (handle_token o req = .Error .MalformedClientId ↔
      req.method = Method.Post ∧
      req.content_type = some ContentType.UrlEncoded ∧
      ∃ q, tokenQueryFromPairs (formDecode req.body) = some q ∧
        q.grant_type = "authorization_code" ∧
        ∃ a, req.authorization = some a ∧
          ∃ creds, BasicAuth.Credentials.from_str a = .ok creds ∧
            creds.userid = q.client_id ∧
            ClientId.check_password creds.userid o.client_password_secret
              creds.password = true ∧
            ∃ acd, AuthCodeData.from_code q.code o.auth_code_secret
                q.client_id = .ok acd ∧
              ClientId.tryFrom q.client_id = .error .MalformedClientId) ∧
    (handle_token o req = .Error .InvalidClientMAC ↔
      req.method = Method.Post ∧
      req.content_type = some ContentType.UrlEncoded ∧
      ∃ q, tokenQueryFromPairs (formDecode req.body) = some q ∧
        q.grant_type = "authorization_code" ∧
        ∃ a, req.authorization = some a ∧
          ∃ creds, BasicAuth.Credentials.from_str a = .ok creds ∧
            creds.userid = q.client_id ∧
            ClientId.check_password creds.userid o.client_password_secret
              creds.password = true ∧
            ∃ acd, AuthCodeData.from_code q.code o.auth_code_secret
                q.client_id = .ok acd ∧
              ∃ cid, ClientId.tryFrom q.client_id = .ok cid ∧
                cid.check_mac o.client_hmac_secret q.redirect_uri = false) ∧
    (req.method = Method.Post →
      req.content_type = some ContentType.UrlEncoded →
      ∀ q, tokenQueryFromPairs (formDecode req.body) = some q →
      q.grant_type = "authorization_code" →
      ∀ a, req.authorization = some a →
      ∀ creds, BasicAuth.Credentials.from_str a = .ok creds →
      creds.userid = q.client_id →
      ClientId.check_password creds.userid o.client_password_secret
        creds.password = true →
      ∀ acd, AuthCodeData.from_code q.code o.auth_code_secret q.client_id
        = .ok acd →
      ∀ cid, ClientId.tryFrom q.client_id = .ok cid →
      cid.check_mac o.client_hmac_secret q.redirect_uri = true →
      handle_token o req = .IdToken acd.id_token ∧
      (Response.Token (.IdToken acd.id_token)).into_body
        = "\x7b\"access_token\":\"we provide only an id_token, no access token\",\"token_type\":\"absent\",\"id_token\":"
          ++ jsonStr acd.id_token ++ "\x7d") := by
  by_cases hm : req.method = Method.Post
  · by_cases hct : req.content_type = some ContentType.UrlEncoded
    · rcases hq : tokenQueryFromPairs (formDecode req.body) with _ | q
      · simp [handle_token, hm, hct, hq]
      · by_cases hgt : q.grant_type = "authorization_code"
        · rcases ha : req.authorization with _ | a
          · simp [handle_token, hm, hct, hq, hgt, ha]
          · rcases hcred : BasicAuth.Credentials.from_str a with e | creds
            · simp [handle_token, hm, hct, hq, hgt, ha, hcred]
            · by_cases huid : creds.userid = q.client_id
              · by_cases hpw : ClientId.check_password q.client_id
                    o.client_password_secret creds.password = true
                · rcases hac : AuthCodeData.from_code q.code
                      o.auth_code_secret q.client_id with e2 | acd
                  · have he2 := from_code_error_eq _ _ _ e2 hac
                    subst he2
                    simp [handle_token, hm, hct, hq, hgt, ha, hcred, huid,
                      hpw, hac]
                  · rcases hcid : ClientId.tryFrom q.client_id with e3 | cid
                    · have he3 := tryFrom_error_eq _ e3 hcid
                      subst he3
                      simp [handle_token, hm, hct, hq, hgt, ha, hcred, huid,
                        hpw, hac, hcid]
                    · by_cases hmac2 : cid.check_mac o.client_hmac_secret
                          q.redirect_uri = true
                      · simp [handle_token, hm, hct, hq, hgt, ha, hcred,
                          huid, hpw, hac, hcid, hmac2, Response.into_body]
                      · simp [handle_token, hm, hct, hq, hgt, ha, hcred,
                          huid, hpw, hac, hcid, hmac2]
                · simp [handle_token, hm, hct, hq, hgt, ha, hcred, huid, hpw]
              · simp [handle_token, hm, hct, hq, hgt, ha, hcred, huid]
        · simp [handle_token, hm, hct, hq, hgt]
    · simp [handle_token, hm, hct]
  · simp [handle_token, hm]

theorem handle_token_pipeline_witness :
    handle_token oidcEx ⟨Method.Get, "", "", none, none⟩
      = .Error .UnsupportedMethod :=
  (handle_token_pipeline oidcEx ⟨Method.Get, "", "", none, none⟩).1.mpr
    (by decide)

/-- C4 counterexample: at this concrete token request all checks pass
up to and including the unsealing of the code, the re-parse of the
body's `client_id` (`"hub"`, no tilde) fails, and `handle_token`
returns `MalformedClientId` — not the `InvalidClientMAC` the claim
assigns to a failure of the re-parse-and-verify step. -/
theorem handle_token_reparse_counterexample :
    handle_token oidcEx reqTokenHub = .Error .MalformedClientId ∧
    AuthCodeData.from_code codeHub oidcEx.auth_code_secret "hub"
      = .ok ⟨"idtok"⟩ ∧
    ClientId.tryFrom "hub" = .error .MalformedClientId ∧
    TokenResponse.Error .MalformedClientId
      ≠ TokenResponse.Error .InvalidClientMAC := by
  exact ⟨rfl, rfl, rfl, by decide⟩

/-! ### C5: authorization endpoint direct-error pipeline -/

theorem hav_rm (o : OidcImpl) (ivc : ClientId → String → Bool) (q : AuthQuery)
    (cid : ClientId) (rng : Option (List Nat))
    (hrm : q.response_mode ≠ some "form_post") :
    handle_auth_validated o ivc q cid rng
      = .Resp (.Auth (.Error .UnsupportedResponseMode)) := by
  unfold handle_auth_validated
  rw [if_pos hrm]

theorem hav_shape (o : OidcImpl) (ivc : ClientId → String → Bool)
    (q : AuthQuery) (cid : ClientId) (rng : Option (List Nat))
    (hrm : q.response_mode = some "form_post") :
    (∃ rur, handle_auth_validated o ivc q cid rng
        = .Resp (.Auth (.FormPost rur))) ∨
    (∃ h, handle_auth_validated o ivc q cid rng = .Handler h) := by
  unfold handle_auth_validated
  rw [if_neg (by simp [hrm])]
  by_cases h2 : q.response_type ≠ "code"
  · rw [if_pos h2]; exact Or.inl ⟨_, rfl⟩
  · rw [if_neg h2]
    by_cases h3 : ¬ is_valid_state q.state = true
    · rw [if_pos h3]; exact Or.inl ⟨_, rfl⟩
    · rw [if_neg h3]
      by_cases h4 : q.display.isSome = true
      · rw [if_pos h4]; exact Or.inl ⟨_, rfl⟩
      · rw [if_neg h4]
        by_cases h5 : q.prompt.isSome = true
        · rw [if_pos h5]; exact Or.inl ⟨_, rfl⟩
        · rw [if_neg h5]
          by_cases h6 : q.max_age.isSome = true
          · rw [if_pos h6]; exact Or.inl ⟨_, rfl⟩
          · rw [if_neg h6]
            by_cases h7 : q.ui_locales.isSome = true
            · rw [if_pos h7]; exact Or.inl ⟨_, rfl⟩
            · rw [if_neg h7]
              by_cases h8 : q.id_token_hint.isSome = true
              · rw [if_pos h8]; exact Or.inl ⟨_, rfl⟩
              · rw [if_neg h8]
                by_cases h9 : q.login_hint.isSome = true
                · rw [if_pos h9]; exact Or.inl ⟨_, rfl⟩
                · rw [if_neg h9]
                  by_cases h10 : q.acr_values.isSome = true
                  · rw [if_pos h10]; exact Or.inl ⟨_, rfl⟩
                  · rw [if_neg h10]
                    by_cases h11 : ¬ is_valid_state q.nonce = true
                    · rw [if_pos h11]; exact Or.inl ⟨_, rfl⟩
                    · rw [if_neg h11]
                      split <;> try exact Or.inl ⟨_, rfl⟩
                      split <;> try exact Or.inl ⟨_, rfl⟩
                      split <;> try exact Or.inl ⟨_, rfl⟩
                      split_ifs <;> try exact Or.inl ⟨_, rfl⟩
                      split
                      · exact Or.inr ⟨_, rfl⟩
                      · exact Or.inl ⟨_, rfl⟩

/-- C5: `handle_auth` performs its direct-error checks in order with
first-failure short-circuit — method, query record, client-id parse,
MAC against the raw `redirect_uri` string (before URI parsing), URI
parse / scheme / fragment, URI-query reserved-field check, and
`response_mode` — and once all direct checks pass, every later failure
is reported via a form-POST bounce (or the request is handed to the
handler), never as a direct error. -/
theorem handle_auth_direct_error_pipeline (o : OidcImpl)
    (ivc : ClientId → String → Bool) (req : Request)
    (rng : Option (List Nat)) :
    (handle_auth o ivc req rng = .Resp (.Auth (.Error .UnsupportedMethod)) ↔
      req.method ≠ Method.Get) ∧
    (handle_auth o ivc req rng = .Resp (.Auth (.Error .MalformedQuery)) ↔
      req.method = Method.Get ∧
      authQueryFromPairs (formDecode req.query) = none) ∧
    (handle_auth o ivc req rng = .Resp (.Auth (.Error .MalformedClientId)) ↔
      req.method = Method.Get ∧
      ∃ q, authQueryFromPairs (formDecode req.query) = some q ∧
        ClientId.tryFrom q.client_id = .error .MalformedClientId) ∧
    (handle_auth o ivc req rng = .Resp (.Auth (.Error .InvalidClientMAC)) ↔
      req.method = Method.Get ∧
      ∃ q, authQueryFromPairs (formDecode req.query) = some q ∧
        ∃ cid, ClientId.tryFrom q.client_id = .ok cid ∧
          cid.check_mac o.client_hmac_secret q.redirect_uri = false) ∧
    (handle_auth o ivc req rng = .Resp (.Auth (.Error .MalformedRedirectUri)) ↔
      req.method = Method.Get ∧
      ∃ q, authQueryFromPairs (formDecode req.query) = some q ∧
        ∃ cid, ClientId.tryFrom q.client_id = .ok cid ∧
          cid.check_mac o.client_hmac_secret q.redirect_uri = true ∧
          (urlParse q.redirect_uri = none ∨
            ∃ u, urlParse q.redirect_uri = some u ∧
              (u.scheme ≠ "https" ∨ u.fragment.isSome = true ∨
                ∃ ruq, u.query = some ruq ∧
                  (rusfFromPairs (formDecode ruq) = none ∨
                    ∃ f, rusfFromPairs (formDecode ruq) = some f ∧
                      f.empty = false)))) ∧
    (handle_auth o ivc req rng
        = .Resp (.Auth (.Error .UnsupportedResponseMode)) ↔
      req.method = Method.Get ∧
      ∃ q, authQueryFromPairs (formDecode req.query) = some q ∧
        ∃ cid, ClientId.tryFrom q.client_id = .ok cid ∧
          cid.check_mac o.client_hmac_secret q.redirect_uri = true ∧
          (∃ u, urlParse q.redirect_uri = some u ∧ u.scheme = "https" ∧
            u.fragment = none ∧
            (u.query = none ∨ ∃ ruq, u.query = some ruq ∧
              ∃ f, rusfFromPairs (formDecode ruq) = some f ∧
                f.empty = true)) ∧
          q.response_mode ≠ some "form_post") ∧
    (req.method = Method.Get →
      ∀ q, authQueryFromPairs (formDecode req.query) = some q →
      ∀ cid, ClientId.tryFrom q.client_id = .ok cid →
      cid.check_mac o.client_hmac_secret q.redirect_uri = true →
      ∀ u, urlParse q.redirect_uri = some u →
      u.scheme = "https" → u.fragment = none →
      (u.query = none ∨ ∃ ruq, u.query = some ruq ∧
        ∃ f, rusfFromPairs (formDecode ruq) = some f ∧ f.empty = true) →
      q.response_mode = some "form_post" →
      (∃ rur, handle_auth o ivc req rng = .Resp (.Auth (.FormPost rur))) ∨
      (∃ h, handle_auth o ivc req rng = .Handler h)) := by
  by_cases hm : req.method = Method.Get
  · rcases hq : authQueryFromPairs (formDecode req.query) with _ | q
    · simp [handle_auth, hm, hq]
    · rcases hcid : ClientId.tryFrom q.client_id with e | cid
      · have he := tryFrom_error_eq _ e hcid
        subst he
        simp [handle_auth, hm, hq, hcid]
      · by_cases hmac : cid.check_mac o.client_hmac_secret q.redirect_uri
            = true
        · rcases hu : urlParse q.redirect_uri with _ | u
          · simp [handle_auth, hm, hq, hcid, hmac, hu]
          · by_cases hs : u.scheme = "https"
            · rcases hf : u.fragment with _ | fr
              · rcases hq2 : u.query with _ | ruq
                · by_cases hrm : q.response_mode = some "form_post"
                  · rcases hav_shape o ivc q cid rng hrm with ⟨rur, hr⟩ |
                      ⟨h, hr⟩ <;>
                      simp [handle_auth, hm, hq, hcid, hmac, hu, hs, hf,
                        hq2, hr, hrm]
                  · have hres := hav_rm o ivc q cid rng hrm
                    simp [handle_auth, hm, hq, hcid, hmac, hu, hs, hf, hq2,
                      hres, hrm]
                · rcases hr2 : rusfFromPairs (formDecode ruq) with _ | f
                  · simp [handle_auth, hm, hq, hcid, hmac, hu, hs, hf, hq2,
                      hr2]
                  · by_cases hemp : f.empty = true
                    · by_cases hrm : q.response_mode = some "form_post"
                      · rcases hav_shape o ivc q cid rng hrm with ⟨rur, hr⟩ |
                          ⟨h, hr⟩ <;>
                          simp [handle_auth, hm, hq, hcid, hmac, hu, hs, hf,
                            hq2, hr2, hemp, hr, hrm]
                      · have hres := hav_rm o ivc q cid rng hrm
                        simp [handle_auth, hm, hq, hcid, hmac, hu, hs, hf,
                          hq2, hr2, hemp, hres, hrm]
                    · simp [handle_auth, hm, hq, hcid, hmac, hu, hs, hf, hq2,
                        hr2, hemp]
              · simp [handle_auth, hm, hq, hcid, hmac, hu, hs, hf]
            · simp [handle_auth, hm, hq, hcid, hmac, hu, hs]
        · simp [handle_auth, hm, hq, hcid, hmac]
  · simp [handle_auth, hm]

theorem handle_auth_direct_error_pipeline_witness :
    handle_auth oidcEx ivcTrue ⟨Method.Post, "", "", none, none⟩ (some nonceEx)
      = .Resp (.Auth (.Error .UnsupportedMethod)) :=
  (handle_auth_direct_error_pipeline oidcEx ivcTrue
    ⟨Method.Post, "", "", none, none⟩ (some nonceEx)).1.mpr (by decide)

end Pubhubs
